import Mathlib

/-!
Verification of the find-object detection core (src/FindObject.cpp, src/Vocabulary.cpp)
against its natural-language specification.

The embedding below translates the C++ source into Lean:
* `cv::Mat` descriptor matrices become a list of rows (`List (List Int)`) together
  with the column count and OpenCV element-type tag that the source inspects.
* `QMultiMap<K, V>` is modelled as a list of key/value pairs where `insert`
  prepends, matching Qt's "most recently inserted value first" semantics of
  `value(key)`/`values(key)`; `std::multimap` (used by `limitKeypoints`) instead
  inserts at the upper bound of the equal-key range, i.e. after existing equal
  keys, which is modelled by `mmInsertStd`.
* The FLANN approximate-NN index is an external collaborator; its `knnSearch`
  answers are supplied by an oracle (`NNOracle`).  All surrounding logic
  (staging-block bookkeeping, NNDR test, result merging, match insertion,
  min/max distance tracking) is translated faithfully from the source.
* Machine `int`/`float` values are modelled by `Int`/`Rat`; the quantities the
  claims are about (row counts, word ids, distances) stay far from any overflow.
-/

namespace FindObjectSpec

/-- One keypoint; only the fields the verified code inspects are kept:
`response` is the truncation key of `limitKeypoints`, `x` tags the keypoint so
that distinct keypoints with equal responses can be told apart. -/
structure Keypoint where
  x : Rat
  response : Rat
deriving DecidableEq

instance : Inhabited Keypoint := ⟨⟨0, 0⟩⟩

/-- A `cv::Mat` of descriptors: the rows, the column count (`cols`) and the
OpenCV element-type tag (`type()`), the two properties `updateVocabulary`
verifies. -/
structure Mat where
  data : List (List Int)
  cols : Nat
  mtype : Nat
deriving DecidableEq

/-- The `std::multimap` single-argument `insert`: the new pair is placed at the
upper bound of its key, i.e. after all pairs with key less than or equal to the
new key (C++11 guarantee).  Used by `limitKeypoints` for its response map. -/
def mmInsertStd (p : Rat × Nat) : List (Rat × Nat) → List (Rat × Nat)
  | [] => [p]
  | q :: rest => if p.1 < q.1 then p :: q :: rest else q :: mmInsertStd p rest

/-- The first loop of `limitKeypoints`: insert `(fabs(response), index)` for
each keypoint, in index order, into a `std::multimap<float, int>`. -/
def buildResponseMap : Nat → List (Rat × Nat) → List Keypoint → List (Rat × Nat)
  | _, acc, [] => acc
  | i, acc, kp :: rest => buildResponseMap (i + 1) (mmInsertStd (|kp.response|, i) acc) rest

/-- The `reponseMap` of `limitKeypoints` (FindObject.cpp:183-188). -/
def responseMap (keypoints : List Keypoint) : List (Rat × Nat) :=
  buildResponseMap 0 [] keypoints

/-- `limitKeypoints` (FindObject.cpp:177-203): when `maxKeypoints > 0` and the
list is longer, keep the first `maxKeypoints` entries of the reverse iteration
of the response multimap; otherwise return the input.  The reverse iteration of
the multimap is the reverse of its ascending-key order. -/
def limitKeypoints (keypoints : List Keypoint) (maxKeypoints : Int) : List Keypoint :=
  if 0 < maxKeypoints ∧ maxKeypoints < (keypoints.length : Int) then
    ((responseMap keypoints).reverse.take maxKeypoints.toNat).map
      (fun p => keypoints.getD p.2 default)
  else
    keypoints

/-! ### Qt multimap helpers

A `QMultiMap<K, V>` is modelled as a list of key/value pairs in which `insert`
prepends, so that the head side of the list is "most recently inserted";
`value(key)` returns the most recently inserted value for `key` and
`count(key)` the number of values stored under `key`. -/

/-- `QMultiMap<int,int>::count(key)` for the prepend-modelled multimap. -/
def qcount (l : List (Nat × Nat)) (key : Nat) : Nat :=
  (l.filter (fun p => p.1 == key)).length

/-- `QMultiMap<int,int>::value(key)`: most recently inserted value under `key`,
default-constructed `int` (0) when absent. -/
def qvalue (l : List (Nat × Nat)) (key : Nat) : Nat :=
  ((l.find? (fun p => p.1 == key)).map (·.2)).getD 0

/-- Insertion into a `QMultiMap<float, int>` viewed in ascending key order
(`fullResults` of `Vocabulary::addWords`): the new pair is placed before the
existing pairs with the same key ("from the most recently to the least recently
inserted"), i.e. at the lower bound of its key. -/
def qmmInsert (p : Rat × Nat) : List (Rat × Nat) → List (Rat × Nat)
  | [] => [p]
  | q :: rest => if p.1 ≤ q.1 then p :: q :: rest else q :: qmmInsert p rest

/-! ### Vocabulary (src/Vocabulary.cpp) -/

/-- The vocabulary state: the indexed block, the staging block of
not-yet-indexed descriptors, the staging word-id list and the word-id to
object-id multimap.  The FLANN index itself is an external collaborator and is
not part of the state; searches over it are answered by an `NNOracle`. -/
structure Vocabulary where
  indexedDescriptors : List (List Int)
  notIndexedDescriptors : List (List Int)
  notIndexedWordIds : List Nat
  wordToObjects : List (Nat × Int)
deriving DecidableEq

/-- The empty vocabulary, also the result of `Vocabulary::clear()`
(Vocabulary.cpp:44-50). -/
def vocabEmpty : Vocabulary := ⟨[], [], [], []⟩

/-- `Vocabulary::clear()` empties both descriptor blocks, the word-to-object
map and the staging word-id list. -/
def Vocabulary.clearV (_ : Vocabulary) : Vocabulary := vocabEmpty

/-- Vocabulary size, `indexedDescriptors_.rows + notIndexedDescriptors_.rows`.
Modelled from the spec: `Vocabulary::size()` lives in the header, which is not
under src/; the spec fixes it by "vocabulary size grows by exactly
`descriptors.rows`" on staging and "after `update()` ...
`indexedDescriptors.rows == vocab.size`". -/
def Vocabulary.size (v : Vocabulary) : Nat :=
  v.indexedDescriptors.length + v.notIndexedDescriptors.length

/-- Answers of the external FLANN `knnSearch` calls made by the incremental
`Vocabulary::addWords` path: `globalNN i` lists the `(distance, word-id)`
candidates returned by the index search for query row `i`
(Vocabulary.cpp:70/146-153), and `localNN i m` lists the
`(distance, staging-slot)` candidates of the linear scan over the staging block
of current size `m` (Vocabulary.cpp:94-141); the slot is looked up in
`notIndexedWordIds` by the surrounding code. -/
structure NNOracle where
  globalNN : Nat → List (Rat × Nat)
  localNN : Nat → Nat → List (Rat × Nat)

/-- The NNDR test of the incremental `Vocabulary::addWords`
(Vocabulary.cpp:156-162): a match is recognized iff at least two candidates
exist and the nearest distance is within `ratio` times the second one; the
matched word is the nearest candidate's. -/
def nndrPick (ratio : Rat) (fullResults : List (Rat × Nat)) : Option Nat :=
  match fullResults with
  | a :: b :: _ => if a.1 ≤ ratio * b.1 then some a.2 else none
  | _ => none

/-- The matched branch of the incremental row loop (Vocabulary.cpp:164-169):
record `(bestWordId, i)` in the words result and the word-to-object map; the
staging block is untouched. -/
def recordMatch (v : Vocabulary) (words : List (Nat × Nat)) (objectId : Int)
    (i w : Nat) : Vocabulary × List (Nat × Nat) :=
  ({ v with wordToObjects := (w, objectId) :: v.wordToObjects }, (w, i) :: words)

/-- The unmatched branch of the incremental row loop (Vocabulary.cpp:170-177):
allocate the fresh word id `indexedDescriptors_.rows + notIndexedDescriptors_.rows`
(computed before the appends), push it and the descriptor row onto the staging
block, and record it in the words result and the word-to-object map. -/
def stageRow (v : Vocabulary) (words : List (Nat × Nat)) (objectId : Int)
    (i : Nat) (descRow : List Int) : Vocabulary × List (Nat × Nat) :=
  let w := v.indexedDescriptors.length + v.notIndexedDescriptors.length
  ({ v with
      notIndexedWordIds := v.notIndexedWordIds ++ [w]
      notIndexedDescriptors := v.notIndexedDescriptors ++ [descRow]
      wordToObjects := (w, objectId) :: v.wordToObjects },
    (w, i) :: words)

/-- The candidate gathering of one incremental `Vocabulary::addWords` row
(Vocabulary.cpp:87-162): the linear staging scan (run only when the staging
block is non-empty, its slots resolved through `notIndexedWordIds`), then the
index search results (only under `globalSearch`), merged in that order into
the distance-sorted `fullResults` multimap, and fed to the NNDR test. -/
def incPick (ratio : Rat) (o : NNOracle) (globalSearch : Bool) (v : Vocabulary)
    (i : Nat) : Option Nat :=
  let localResults : List (Rat × Nat) :=
    if v.notIndexedDescriptors ≠ [] then
      (o.localNN i v.notIndexedDescriptors.length).map
        (fun p => (p.1, v.notIndexedWordIds.getD p.2 0))
    else []
  let globalResults : List (Rat × Nat) := if globalSearch then o.globalNN i else []
  let fullResults := (localResults ++ globalResults).foldl (fun m p => qmmInsert p m) []
  nndrPick ratio fullResults

/-- One iteration of the incremental `Vocabulary::addWords` row loop
(Vocabulary.cpp:85-178): gather and test the candidates, then either record a
match to an existing word or stage the row under a fresh word id. -/
def incStep (ratio : Rat) (o : NNOracle) (objectId : Int) (globalSearch : Bool)
    (i : Nat) (st : Vocabulary × List (Nat × Nat)) (descRow : List Int) :
    Vocabulary × List (Nat × Nat) :=
  match incPick ratio o globalSearch st.1 i with
  | some w => recordMatch st.1 st.2 objectId i w
  | none => stageRow st.1 st.2 objectId i descRow

/-- The incremental row loop of `Vocabulary::addWords`, threading the row index
`i` exactly as the `for(int i = 0; i < descriptors.rows; ++i)` loop does. -/
def incLoop (ratio : Rat) (o : NNOracle) (objectId : Int) (globalSearch : Bool) :
    Nat → Vocabulary × List (Nat × Nat) → List (List Int) → Vocabulary × List (Nat × Nat)
  | _, st, [] => st
  | i, st, r :: rest => incLoop ratio o objectId globalSearch (i + 1)
      (incStep ratio o objectId globalSearch i st r) rest

/-- `Vocabulary::addWords(descriptors, objectId, incremental)`
(Vocabulary.cpp:52-194).  Empty input returns empty words.  The incremental
path runs the row loop above with `globalSearch` decided once from the indexed
block (Vocabulary.cpp:67).  The non-incremental path allocates the fresh
sequential word ids `M + M' + i`, records them in the words result, the
word-to-object map and the staging id list, and concatenates the descriptors
onto the staging block; no matching is performed. -/
def Vocabulary.addWords (v : Vocabulary) (descriptors : List (List Int)) (objectId : Int)
    (incremental : Bool) (ratio : Rat) (o : NNOracle) :
    Vocabulary × List (Nat × Nat) :=
  if descriptors = [] then (v, [])
  else if incremental then
    let globalSearch := v.indexedDescriptors ≠ [] ∧ 2 ≤ v.indexedDescriptors.length
    incLoop ratio o objectId globalSearch 0 (v, []) descriptors
  else
    let base := v.indexedDescriptors.length + v.notIndexedDescriptors.length
    let n := descriptors.length
    ({ v with
        wordToObjects :=
          (((List.range n).map (fun i => ((base + i : Nat), objectId))).reverse)
            ++ v.wordToObjects
        notIndexedWordIds := v.notIndexedWordIds ++ (List.range n).map (base + ·)
        notIndexedDescriptors := v.notIndexedDescriptors ++ descriptors },
      (((List.range n).map (fun i => ((base + i : Nat), i))).reverse))

/-- `Vocabulary::update()` (Vocabulary.cpp:196-216): append the staging block
to the indexed block and clear the staging state; the FLANN index rebuild over
`indexedDescriptors_` is external and carries no modelled state. -/
def Vocabulary.update (v : Vocabulary) : Vocabulary :=
  if v.notIndexedDescriptors ≠ [] then
    { indexedDescriptors := v.indexedDescriptors ++ v.notIndexedDescriptors
      notIndexedDescriptors := []
      notIndexedWordIds := []
      wordToObjects := v.wordToObjects }
  else v

/-- The `Q_ASSERT` precondition of `Vocabulary::search`
(Vocabulary.cpp:220): both staging containers must be empty. -/
def searchPrecondition (v : Vocabulary) : Prop :=
  v.notIndexedDescriptors = [] ∧ v.notIndexedWordIds = []

instance (v : Vocabulary) : Decidable (searchPrecondition v) := by
  unfold searchPrecondition; infer_instance

/-- The oracle returning no candidates, used to instantiate witnesses. -/
def trivialOracle : NNOracle := ⟨fun _ => [], fun _ _ => []⟩

/-! ### Object library and FindObject state (src/FindObject.cpp) -/

/-- An object signature: its id and its descriptor matrix.  The image,
keypoints, per-object word map and rectangle carried by the C++ `ObjSignature`
feed only the feature-extraction and UI paths, which no claim touches. -/
structure ObjSignature where
  id : Int
  descriptors : Mat
deriving DecidableEq

/-- Ordered insertion into the `QMap<int, ObjSignature*> objects_` (keyed and
iterated by ascending id; `insert` replaces an existing key). -/
def insertById (obj : ObjSignature) : List ObjSignature → List ObjSignature
  | [] => [obj]
  | o :: rest =>
    if obj.id < o.id then obj :: o :: rest
    else if obj.id = o.id then obj :: rest
    else o :: insertById obj rest

/-- The `FindObject` state the claims are about: the object library (in id
order), the global descriptor store `objectsDescriptors_`, the row-to-object
range map `dataRange_`, the vocabulary, and the `General/nextObjID` setting. -/
structure FindObject where
  objects : List ObjSignature
  objectsDescriptors : List (Int × Mat)
  dataRange : List (Nat × Int)
  vocabulary : Vocabulary
  nextObjID : Int
deriving DecidableEq

/-- `FindObject::clearVocabulary()` (FindObject.cpp:306-311): clears the
global descriptor store, the range map and the vocabulary. -/
def FindObject.clearVocabulary (s : FindObject) : FindObject :=
  { s with objectsDescriptors := [], dataRange := [], vocabulary := vocabEmpty }

/-- `FindObject::addObject(ObjSignature*)` (FindObject.cpp:130-149): reject a
colliding nonzero id; assign `nextObjID` when the id is 0; then set
`nextObjID = id + 1`, insert the object and clear the vocabulary.  Returns the
new state, the success flag, and the id the object ended up with. -/
def FindObject.addObject (s : FindObject) (obj : ObjSignature) :
    FindObject × Bool × Int :=
  if obj.id ≠ 0 ∧ s.objects.any (fun o => o.id = obj.id) then
    (s, false, obj.id)
  else
    let newId := if obj.id = 0 then s.nextObjID else obj.id
    ({ s with
        objects := insertById { obj with id := newId } s.objects
        objectsDescriptors := []
        dataRange := []
        vocabulary := vocabEmpty
        nextObjID := newId + 1 },
      true, newId)

/-- `FindObject::removeObject(id)` (FindObject.cpp:151-159): drop the
signature and clear the vocabulary only when the id is present. -/
def FindObject.removeObject (s : FindObject) (id : Int) : FindObject :=
  if s.objects.any (fun o => o.id = id) then
    { s with
        objects := s.objects.filter (fun o => o.id ≠ id)
        objectsDescriptors := []
        dataRange := []
        vocabulary := vocabEmpty }
  else s

/-- `FindObject::removeAllObjects()` (FindObject.cpp:161-166). -/
def FindObject.removeAllObjects (s : FindObject) : FindObject :=
  { s with objects := [], objectsDescriptors := [], dataRange := [], vocabulary := vocabEmpty }

/-- The verification loop of `FindObject::updateVocabulary`
(FindObject.cpp:316-341): fold over the per-object descriptor matrices with
the running `count`, `dim` and `type` (the latter two starting at the −1
sentinel); a non-empty matrix whose column count or element type differs from
an already-seen one yields `none` (the `UERROR`-and-return path). -/
def verifyLoop : List Mat → Nat → Int → Int → Option (Nat × Int × Int)
  | [], count, dim, ty => some (count, dim, ty)
  | m :: rest, count, dim, ty =>
    if m.data = [] then verifyLoop rest count dim ty
    else if 0 ≤ dim ∧ (m.cols : Int) ≠ dim then none
    else if 0 ≤ ty ∧ (m.mtype : Int) ≠ ty then none
    else verifyLoop rest (count + m.data.length) (m.cols : Int) (m.mtype : Int)

/-- The copy loop of `FindObject::updateVocabulary` (FindObject.cpp:351-368):
concatenate the non-empty descriptor matrices in library order into one matrix
and record in `dataRange_` the last row of each object mapped to its id. -/
def buildConcat : List ObjSignature → Nat → List (List Int) × List (Nat × Int)
  | [], _ => ([], [])
  | ob :: rest, row =>
    if ob.descriptors.data ≠ [] then
      let row' := row + ob.descriptors.data.length
      let res := buildConcat rest row'
      (ob.descriptors.data ++ res.1, (row' - 1, ob.id) :: res.2)
    else buildConcat rest row

/-- `QMultiMap::uniqueKeys().size()` of an addWords result: the number of
distinct word ids. -/
def uniqueKeysCount (words : List (Nat × Nat)) : Nat :=
  (words.map (·.1)).dedup.length

/-- The vocabulary-building loop of `FindObject::updateVocabulary`
(FindObject.cpp:387-410): per object, `addWords`, accumulate the number of new
unique word ids, and in incremental mode flush the staging block with
`update()` whenever the accumulator reaches `vocabularyUpdateMinWords`. -/
def updVocabLoop (incremental : Bool) (minWords : Int) (ratio : Rat) (o : NNOracle) :
    List ObjSignature → Vocabulary × Int → Vocabulary × Int
  | [], st => st
  | ob :: rest, st =>
    let r := st.1.addWords ob.descriptors.data ob.id incremental ratio o
    let a1 : Int := st.2 + (uniqueKeysCount r.2 : Int)
    let st1 := if incremental ∧ a1 ≠ 0 ∧ minWords ≤ a1 then (r.1.update, (0 : Int)) else (r.1, a1)
    updVocabLoop incremental minWords ratio o rest st1

/-- `FindObject::updateVocabulary()` (FindObject.cpp:313-430).  The call first
clears the vocabulary state, then verifies the per-object matrices; on a
mismatch it returns (already cleared).  Otherwise, when there are descriptors:
with inverted search or a single thread it builds the concatenated matrix and
`dataRange_`, and with inverted search it additionally rebuilds the vocabulary
through the addWords loop (with a final flushing `update()` when any words
remain unflushed); in the remaining case it stores the matrices per object. -/
def FindObject.updateVocabulary (inverted : Bool) (threads : Nat) (incremental : Bool)
    (minWords : Int) (ratio : Rat) (o : NNOracle) (s : FindObject) : FindObject :=
  let s0 := s.clearVocabulary
  match verifyLoop (s.objects.map (·.descriptors)) 0 (-1) (-1) with
  | none => s0
  | some (count, dim, ty) =>
    if count ≠ 0 then
      if inverted ∨ threads = 1 then
        let cc := buildConcat s.objects 0
        let s1 := { s0 with
          objectsDescriptors := [((0 : Int), ⟨cc.1, dim.toNat, ty.toNat⟩)]
          dataRange := cc.2 }
        if inverted then
          let vf := updVocabLoop incremental minWords ratio o s.objects (s0.vocabulary, 0)
          { s1 with vocabulary := if vf.2 ≠ 0 then vf.1.update else vf.1 }
        else s1
      else
        { s0 with objectsDescriptors := s.objects.map (fun ob => (ob.id, ob.descriptors)) }
    else s0

/-- The scene-vocabulary build of the non-inverted branch of
`FindObject::detect` (FindObject.cpp:719-729): clear the vocabulary, add the
scene descriptors under object id −1 with the configured incremental flag, and
call `update()` only when not incremental.  `Vocabulary::search` runs right
after this on the same vocabulary. -/
def buildSceneVocabulary (incremental : Bool) (ratio : Rat) (o : NNOracle)
    (v : Vocabulary) (sceneDescriptors : List (List Int)) :
    Vocabulary × List (Nat × Nat) :=
  let v0 := v.clearV
  let r := v0.addWords sceneDescriptors (-1) incremental ratio o
  if ¬ incremental then (r.1.update, r.2) else r

/-! ### Matching stage (FindObject.cpp:453-523 and 736-863) -/

/-- The nearest-neighbor settings read by the matching loops. -/
structure NNSettings where
  nndrRatioUsed : Bool
  nndrRatio : Rat
  minDistanceUsed : Bool
  minDistance : Rat
deriving DecidableEq

/-- The `matched` computation shared by `SearchThread::run`
(FindObject.cpp:472-493) and the single-threaded result loop
(FindObject.cpp:762-783): NNDR test, then the minimum-distance test, then the
no-criterion fallback. -/
def rowMatched (cfg : NNSettings) (d0 d1 : Rat) : Bool :=
  let m1 := cfg.nndrRatioUsed && decide (d0 ≤ cfg.nndrRatio * d1)
  let m2 := if (m1 || !cfg.nndrRatioUsed) && cfg.minDistanceUsed then
      decide (d0 ≤ cfg.minDistance)
    else m1
  if !m2 && !cfg.nndrRatioUsed && !cfg.minDistanceUsed then true else m2

/-- The min/max matched-distance update (FindObject.cpp:495-502 and 785-792):
both are initialized to the −1 sentinel and updated with `d0` on every row. -/
def updateMinMax (mm : Rat × Rat) (d0 : Rat) : Rat × Rat :=
  ((if mm.1 = -1 ∨ d0 < mm.1 then d0 else mm.1),
   (if mm.2 = -1 ∨ mm.2 < d0 then d0 else mm.2))

/-- The result-processing loop of `SearchThread::run` (FindObject.cpp:469-510).
Each query row `i` of the object's descriptors comes with its `knnSearch`
answer `(d0, d1, wordId)`; on a match whose word occurs exactly once in the
scene vocabulary, the thread inserts `(i, sceneWords.value(wordId))` AND
`(i, wordId)` into its match multimap (both `insert` calls of lines 507-508;
with the prepend model the second insert ends up first). -/
def searchLoop (cfg : NNSettings) (sceneWords : List (Nat × Nat)) :
    Nat → (Rat × Rat) × List (Nat × Nat) → List (Rat × Rat × Nat) →
    (Rat × Rat) × List (Nat × Nat)
  | _, st, [] => st
  | i, st, r :: rest =>
    let d0 := r.1
    let d1 := r.2.1
    let wordId := r.2.2
    let matched := rowMatched cfg d0 d1
    let mm := updateMinMax st.1 d0
    let ms := if matched && (qcount sceneWords wordId == 1) then
        (i, wordId) :: (i, qvalue sceneWords wordId) :: st.2
      else st.2
    searchLoop cfg sceneWords (i + 1) (mm, ms) rest

/-- `SearchThread::run` processing, started with the −1 sentinels and an empty
match multimap. -/
def searchThreadRun (cfg : NNSettings) (sceneWords : List (Nat × Nat))
    (rows : List (Rat × Rat × Nat)) : (Rat × Rat) × List (Nat × Nat) :=
  searchLoop cfg sceneWords 0 ((-1, -1), []) rows

/-- `dataRange_.lowerBound(i)` plus the first-row computation of
FindObject.cpp:811-814: walk the ascending `(lastRow, objectId)` entries
carrying the first row of the current object; the entry with `i ≤ lastRow`
wins.  (An `i` beyond every entry would dereference `end()` in the C++; the
fallback pair is never reached for in-range `i`.) -/
def drLookup : List (Nat × Int) → Nat → Nat → Nat × Int
  | [], first, _ => (first, 0)
  | e :: rest, first, i => if i ≤ e.1 then (first, e.2) else drLookup rest (e.1 + 1) i

/-- The single-threaded result-processing loop of `FindObject::detect` in
non-inverted mode (FindObject.cpp:759-823, `else` branch of line 796): per
matched row, resolve the owning object and its object-local descriptor index
through `dataRange_`, and when the scene vocabulary holds the word exactly
once, insert `(objectDescriptorIndex, words.value(wordId))` into that object's
match multimap — recorded here as the flat triple
`(objectId, objectDescriptorIndex, sceneKeypointIndex)`. -/
def processNonInvLoop (cfg : NNSettings) (dataRange : List (Nat × Int))
    (words : List (Nat × Nat)) :
    Nat → (Rat × Rat) × List (Int × Nat × Nat) → List (Rat × Rat × Nat) →
    (Rat × Rat) × List (Int × Nat × Nat)
  | _, st, [] => st
  | i, st, r :: rest =>
    let d0 := r.1
    let d1 := r.2.1
    let wordId := r.2.2
    let matched := rowMatched cfg d0 d1
    let mm := updateMinMax st.1 d0
    let ms := if matched then
        let fo := drLookup dataRange 0 i
        let objectDescriptorIndex := i - fo.1
        if qcount words wordId == 1 then
          (fo.2, objectDescriptorIndex, qvalue words wordId) :: st.2
        else st.2
      else st.2
    processNonInvLoop cfg dataRange words (i + 1) (mm, ms) rest

/-- The single-threaded non-inverted result processing, started with the −1
sentinels and empty match multimaps. -/
def processResultsNonInverted (cfg : NNSettings) (dataRange : List (Nat × Int))
    (words : List (Nat × Nat)) (rows : List (Rat × Rat × Nat)) :
    (Rat × Rat) × List (Int × Nat × Nat) :=
  processNonInvLoop cfg dataRange words 0 ((-1, -1), []) rows

/-- Least nearest-neighbor distance over the query rows (`-1` when there are
none), the value the claim compares `minMatchedDistance` against. -/
def minD (rows : List (Rat × Rat × Nat)) : Rat :=
  match rows with
  | [] => -1
  | r :: rest => rest.foldl (fun m x => min m x.1) r.1

/-- Greatest nearest-neighbor distance over the query rows (`-1` when there
are none). -/
def maxD (rows : List (Rat × Rat × Nat)) : Rat :=
  match rows with
  | [] => -1
  | r :: rest => rest.foldl (fun m x => max m x.1) r.1

/-! ### Detect gate (FindObject.cpp:705-714, 1023-1032) -/

/-- `vocabulary_->wordToObjects().begin().value()`: Qt iterates a `QMultiMap`
in ascending key order and, within a key, from the most recently inserted
value; with the prepend model this is the first pair carrying the least key
(0 for an empty map, which the C++ never dereferences thanks to the
short-circuit on `vocabulary_->size()`). -/
def qmapBeginValue (l : List (Nat × Int)) : Int :=
  match (l.map (·.1)).min? with
  | none => 0
  | some k => ((l.find? (fun p => p.1 == k)).map (·.2)).getD 0

/-- `consistentNNData` (FindObject.cpp:705-706). -/
def consistentNNData (inverted : Bool) (s : FindObject) : Bool :=
  (s.vocabulary.size ≠ 0 ∧ qmapBeginValue s.vocabulary.wordToObjects ≠ -1 ∧ inverted) ∨
  ((s.vocabulary.size = 0 ∨ qmapBeginValue s.vocabulary.wordToObjects = -1) ∧ ¬ inverted)

/-- The COMPARE gate of `FindObject::detect` (FindObject.cpp:709-713): only
when the global descriptor store is non-empty, the scene has keypoints, the
vocabulary mode is consistent and the scene descriptors match the store's
column count and type does the matching stage run. -/
def detectGate (inverted : Bool) (s : FindObject) (sceneKpts : Nat)
    (sceneCols sceneType : Nat) : Bool :=
  s.objectsDescriptors ≠ [] ∧ sceneKpts ≠ 0 ∧ consistentNNData inverted s ∧
    ((s.objectsDescriptors.head?.map (·.2.cols)).getD 0 = sceneCols ∧
     (s.objectsDescriptors.head?.map (·.2.mtype)).getD 0 = sceneType)

/-- The success flag of `FindObject::detect` for a non-empty input image
(FindObject.cpp:666, 715, 1023-1032): true inside the gate, false on the
"objects must be updated" warning branch, true again for an empty scene
("accept but warn"), false otherwise. -/
def detectSucceeds (inverted : Bool) (s : FindObject) (sceneKpts : Nat)
    (sceneCols sceneType : Nat) : Bool :=
  if detectGate inverted s sceneKpts sceneCols sceneType then true
  else if s.objectsDescriptors ≠ [] ∧ sceneKpts ≠ 0 then false
  else if sceneKpts = 0 then true
  else false

/-- The library mutations of the claim: `addObject`, `removeObject`,
`removeAllObjects`. -/
inductive LibOp where
  | add (obj : ObjSignature)
  | remove (id : Int)
  | removeAll
deriving DecidableEq

/-- Apply a library mutation to the state. -/
def applyOp (s : FindObject) : LibOp → FindObject
  | .add obj => (s.addObject obj).1
  | .remove id => s.removeObject id
  | .removeAll => s.removeAllObjects

/-- The mutation actually mutates: the added id does not collide, the removed
id is present. -/
def mutationEffective (s : FindObject) : LibOp → Prop
  | .add obj => ¬ (obj.id ≠ 0 ∧ s.objects.any (fun o => o.id = obj.id))
  | .remove id => s.objects.any (fun o => o.id = id) = true
  | .removeAll => True

/-! ### Homography stage: the multi-detection block (FindObject.cpp:953-979) -/

/-- The C cast `(int)sqrt(x)` of a non-negative rational: the integer square
root of the floor (for `0 ≤ q`, `⌊√q⌋ = Nat.sqrt ⌊q⌋`). -/
def isqrtQ (q : Rat) : Int := (Nat.sqrt ⌊q⌋.toNat : Int)

/-- `info.objDetected_.find(id)` iteration (FindObject.cpp:963-964): the
translation components of the previously accepted detections of object
`id`. -/
def detectedTranslations (objDetected : List (Int × (Rat × Rat))) (id : Int) :
    List (Rat × Rat) :=
  (objDetected.filter (fun p => p.1 = id)).map (·.2)

/-- The multi-detection block run for a candidate that reached it
(FindObject.cpp:953-979): the candidate's outliers are pushed onto
`matchesList`/`matchesId` first, then `distance` — seeded with
`multiDetectionRadius` — is folded down over the distances to the previously
accepted detections of the same object, and the candidate is `Superposed`
exactly when the final value is below the radius.  Returns the superposed flag
and the two extended candidate lists. -/
def multiDetectionCheck (radius : Int) (id : Int)
    (objDetected : List (Int × (Rat × Rat))) (h : Rat × Rat)
    (outliers : List (Nat × Nat))
    (matchesList : List (List (Nat × Nat))) (matchesId : List Int) :
    Bool × List (List (Nat × Nat)) × List Int :=
  let matchesList1 := matchesList ++ [outliers]
  let matchesId1 := matchesId ++ [id]
  let dist := (detectedTranslations objDetected id).foldl
    (fun dist p =>
      let dx := p.1 - h.1
      let dy := p.2 - h.2
      let d := isqrtQ (dx * dx + dy * dy)
      if d < dist then d else dist) radius
  (decide (dist < radius), matchesList1, matchesId1)

/-! ### Predicates used by the claims -/

/-- Strict ascending order of `(|response|, index)` pairs: by key, then (for
the stable multimap) by original index. -/
def lexLT (a b : Rat × Nat) : Prop := a.1 < b.1 ∨ (a.1 = b.1 ∧ a.2 < b.2)

/-- The staging invariant of claim C8: `notIndexedWordIds[k] = M + k` for every
staging row `k`, i.e. the staging word ids are exactly the dense block
`[M, M + M')` on top of the `M` indexed rows. -/
def stagingInvariant (v : Vocabulary) : Prop :=
  v.notIndexedWordIds =
    (List.range v.notIndexedDescriptors.length).map (v.indexedDescriptors.length + ·)

instance (v : Vocabulary) : Decidable (stagingInvariant v) := by
  unfold stagingInvariant; infer_instance

/-- Every word id recorded in the word-to-object map lies below the vocabulary
size `M + M'`. -/
def wordIdsBounded (v : Vocabulary) : Prop :=
  ∀ p ∈ v.wordToObjects, p.1 < v.size

/-- Total number of descriptor rows over the object library. -/
def sumRows (objs : List ObjSignature) : Nat :=
  (objs.map (fun ob => ob.descriptors.data.length)).sum

/-! ## Theorems -/

/-! ### Claim C1 -/

/-- Claim C1: in the multi-threaded per-object search path (`SearchThread::run`,
FindObject.cpp:504-509), a matched query row with `sceneWords.count(wordId) == 1`
inserts TWO entries into the object's match multimap — the scene keypoint index
`words.value(wordId)` and then the raw word id `results.at(i,0)` — not exactly
one correspondence as claimed.  Concretely: one query row (`d0 = 1`, `d1 = 2`,
`wordId = 5`) with no match criteria configured and scene vocabulary
`{5 ↦ 7}` produces the two multimap entries `(0, 5)` and `(0, 7)` under the
same key 0.  The single-threaded non-inverted loop (FindObject.cpp:809-821) by
contrast inserts exactly the one claimed pair. -/
theorem c1_searchThread_double_insert :
    searchThreadRun ⟨false, 0, false, 0⟩ [(5, 7)] [(1, 2, 5)]
      = ((1, 1), [(0, 5), (0, 7)]) ∧
    qcount (searchThreadRun ⟨false, 0, false, 0⟩ [(5, 7)] [(1, 2, 5)]).2 0 = 2 ∧
    processResultsNonInverted ⟨false, 0, false, 0⟩ [(0, 100)] [(5, 7)] [(1, 2, 5)]
      = ((1, 1), [(100, 0, 7)]) := by
  refine ⟨by decide, by decide, by decide⟩

/-! ### Claim C5 -/

/-- Membership in a `std::multimap` insertion. -/
theorem mem_mmInsertStd (x p : Rat × Nat) (l : List (Rat × Nat)) :
    x ∈ mmInsertStd p l ↔ x = p ∨ x ∈ l := by
  induction l with
  | nil => simp [mmInsertStd]
  | cons q rest ih =>
    simp only [mmInsertStd]
    split
    · simp [List.mem_cons]
    · simp only [List.mem_cons, ih]; tauto

/-- Length of a `std::multimap` insertion. -/
theorem length_mmInsertStd (p : Rat × Nat) (l : List (Rat × Nat)) :
    (mmInsertStd p l).length = l.length + 1 := by
  induction l with
  | nil => rfl
  | cons q rest ih =>
    simp only [mmInsertStd]
    split
    · rfl
    · simp [ih]

/-- A `std::multimap` insertion of a pair whose index exceeds all stored
indices preserves strict `(key, index)`-lexicographic sortedness: the new pair
lands after every pair with a smaller-or-equal key. -/
theorem pairwise_mmInsertStd (p : Rat × Nat) (l : List (Rat × Nat))
    (hl : l.Pairwise lexLT) (hidx : ∀ q ∈ l, q.2 < p.2) :
    (mmInsertStd p l).Pairwise lexLT := by
  induction l with
  | nil => simp [mmInsertStd, lexLT]
  | cons q rest ih =>
    rw [List.pairwise_cons] at hl
    obtain ⟨hq, hrest⟩ := hl
    simp only [mmInsertStd]
    split
    · rename_i hlt
      refine List.Pairwise.cons ?_ (List.Pairwise.cons hq hrest)
      intro x hx
      rcases List.mem_cons.mp hx with rfl | hx
      · exact Or.inl hlt
      · rcases hq x hx with h | ⟨heq, _⟩
        · exact Or.inl (lt_trans hlt h)
        · exact Or.inl (heq ▸ hlt)
    · rename_i hnlt
      push_neg at hnlt
      refine List.Pairwise.cons ?_ (ih hrest (fun r hr => hidx r (List.mem_cons_of_mem q hr)))
      intro x hx
      rcases (mem_mmInsertStd x p rest).mp hx with rfl | hx
      · rcases lt_or_eq_of_le hnlt with h | h
        · exact Or.inl h
        · exact Or.inr ⟨h, hidx q (List.mem_cons_self q rest)⟩
      · exact hq x hx

/-- The response map build keeps the pairs sorted by `lexLT`. -/
theorem buildResponseMap_pairwise (kps : List Keypoint) :
    ∀ (i : Nat) (acc : List (Rat × Nat)),
      acc.Pairwise lexLT → (∀ q ∈ acc, q.2 < i) →
      (buildResponseMap i acc kps).Pairwise lexLT := by
  induction kps with
  | nil => intro i acc h _; simpa [buildResponseMap] using h
  | cons kp rest ih =>
    intro i acc hp hidx
    simp only [buildResponseMap]
    apply ih (i + 1)
    · exact pairwise_mmInsertStd _ _ hp hidx
    · intro q hq
      rcases (mem_mmInsertStd q _ acc).mp hq with rfl | hq
      · exact Nat.lt_succ_self i
      · exact Nat.lt_succ_of_lt (hidx q hq)

/-- The response map holds one pair per keypoint. -/
theorem buildResponseMap_length (kps : List Keypoint) :
    ∀ (i : Nat) (acc : List (Rat × Nat)),
      (buildResponseMap i acc kps).length = acc.length + kps.length := by
  induction kps with
  | nil => intro i acc; simp [buildResponseMap]
  | cons kp rest ih =>
    intro i acc
    simp only [buildResponseMap, ih, length_mmInsertStd, List.length_cons]
    omega

/-- Every pair of the response map is either from the accumulator or is
`(|response|, index)` of one of the keypoints. -/
theorem mem_buildResponseMap (kps : List Keypoint) :
    ∀ (i : Nat) (acc : List (Rat × Nat)) (q : Rat × Nat),
      q ∈ buildResponseMap i acc kps →
      q ∈ acc ∨ ∃ k, k < kps.length ∧ q = (|(kps.getD k default).response|, i + k) := by
  induction kps with
  | nil => intro i acc q hq; exact Or.inl (by simpa [buildResponseMap] using hq)
  | cons kp rest ih =>
    intro i acc q hq
    simp only [buildResponseMap] at hq
    rcases ih (i + 1) _ q hq with h | ⟨k, hk, rfl⟩
    · rcases (mem_mmInsertStd q _ acc).mp h with rfl | h
      · exact Or.inr ⟨0, Nat.succ_pos _, by simp⟩
      · exact Or.inl h
    · refine Or.inr ⟨k + 1, by simpa using hk, ?_⟩
      simp only [List.getD_cons_succ, Prod.mk.injEq]
      exact ⟨trivial, by omega⟩

/-- Claim C5, amended: when `0 < maxK < |kps|`, `limitKeypoints` returns
exactly `maxK` keypoints, drawn from the reverse iteration of the response
multimap; each kept pair carries the absolute response of a genuine keypoint,
and every dropped pair has a strictly smaller key than every kept pair or the
same key and a strictly SMALLER original index — i.e. ties on `|response|`
keep the LATER index first (reverse iteration of a stable ascending multimap),
not the earlier index as the claim states.  Otherwise the input is returned
unchanged. -/
theorem c5_limitKeypoints_amended :
    (∀ (kps : List Keypoint) (maxK : Int), 0 < maxK → maxK < (kps.length : Int) →
      ((limitKeypoints kps maxK).length : Int) = maxK ∧
      (∀ p ∈ (responseMap kps).reverse.take maxK.toNat,
        p.2 < kps.length ∧ p.1 = |(kps.getD p.2 default).response|) ∧
      (∀ p ∈ (responseMap kps).reverse.take maxK.toNat,
        ∀ q ∈ (responseMap kps).reverse.drop maxK.toNat,
          q.1 < p.1 ∨ (q.1 = p.1 ∧ q.2 < p.2))) ∧
    (∀ (kps : List Keypoint) (maxK : Int),
      ¬ (0 < maxK ∧ maxK < (kps.length : Int)) → limitKeypoints kps maxK = kps) := by
  constructor
  · intro kps maxK h1 h2
    have hcond : 0 < maxK ∧ maxK < (kps.length : Int) := ⟨h1, h2⟩
    have hlen : (responseMap kps).length = kps.length := by
      simpa [responseMap] using buildResponseMap_length kps 0 []
    have hpw : (responseMap kps).Pairwise lexLT :=
      buildResponseMap_pairwise kps 0 [] (by simp) (by simp)
    refine ⟨?_, ?_, ?_⟩
    · rw [limitKeypoints, if_pos hcond]
      rw [List.length_map, List.length_take, List.length_reverse, hlen]
      have hle : maxK.toNat ≤ kps.length := by omega
      rw [min_eq_left hle]
      omega
    · intro p hp
      have hps : p ∈ responseMap kps :=
        List.mem_reverse.mp (List.mem_of_mem_take hp)
      rcases mem_buildResponseMap kps 0 [] p (by simpa [responseMap] using hps)
        with h | ⟨k, hk, rfl⟩
      · simp at h
      · exact ⟨by simpa using hk, by simp⟩
    · intro p hp q hq
      have hrev : (responseMap kps).reverse.Pairwise (fun a b => lexLT b a) :=
        List.pairwise_reverse.mpr hpw
      have hsplit := (List.pairwise_append.mp
        (by rw [List.take_append_drop]; exact hrev :
          ((responseMap kps).reverse.take maxK.toNat ++
           (responseMap kps).reverse.drop maxK.toNat).Pairwise (fun a b => lexLT b a)))
      exact hsplit.2.2 p hp q hq
  · intro kps maxK hn
    rw [limitKeypoints, if_neg hn]

/-- Claim C5 holds at a concrete tie-free instance: from responses `1, 3` the
single kept keypoint is the one with the larger response, and a too-large cap
returns the input unchanged. -/
theorem c5_witness :
    (((limitKeypoints [⟨0, 1⟩, ⟨1, 3⟩] 1).length : Int) = 1 ∧
      (∀ p ∈ (responseMap [⟨0, 1⟩, ⟨1, 3⟩]).reverse.take (1 : Int).toNat,
        p.2 < ([⟨0, 1⟩, ⟨1, 3⟩] : List Keypoint).length ∧
        p.1 = |(([⟨0, 1⟩, ⟨1, 3⟩] : List Keypoint).getD p.2 default).response|) ∧
      (∀ p ∈ (responseMap [⟨0, 1⟩, ⟨1, 3⟩]).reverse.take (1 : Int).toNat,
        ∀ q ∈ (responseMap [⟨0, 1⟩, ⟨1, 3⟩]).reverse.drop (1 : Int).toNat,
          q.1 < p.1 ∨ (q.1 = p.1 ∧ q.2 < p.2))) ∧
    limitKeypoints [⟨0, 1⟩, ⟨1, 3⟩] 5 = [⟨0, 1⟩, ⟨1, 3⟩] :=
  ⟨c5_limitKeypoints_amended.1 [⟨0, 1⟩, ⟨1, 3⟩] 1 (by decide) (by decide),
   c5_limitKeypoints_amended.2 [⟨0, 1⟩, ⟨1, 3⟩] 5 (by decide)⟩

/-- Claim C5 as stated is false: three keypoints with equal responses and
`maxK = 2` keep the keypoints at indices 2 and 1 — the earliest index 0 is the
one dropped, contradicting "ties broken by original index (stable, earlier
index kept first)". -/
theorem c5_counterexample :
    limitKeypoints [⟨0, 1⟩, ⟨1, 1⟩, ⟨2, 1⟩] 2 = [⟨2, 1⟩, ⟨1, 1⟩] ∧
    (⟨0, 1⟩ : Keypoint) ∉ limitKeypoints [⟨0, 1⟩, ⟨1, 1⟩, ⟨2, 1⟩] 2 := by
  exact ⟨by decide, by decide⟩

/-! ### Claim C2 -/

/-- The integer-cast square root of a non-negative rational is below a
non-negative integer bound exactly when the radicand is below the squared
bound. -/
theorem isqrtQ_lt (q : Rat) (r : Int) (hq : 0 ≤ q) (hr : 0 ≤ r) :
    isqrtQ q < r ↔ q < (r : Rat) ^ 2 := by
  lift r to ℕ using hr with R
  have h0 : 0 ≤ ⌊q⌋ := Int.floor_nonneg.mpr hq
  unfold isqrtQ
  rw [Nat.cast_lt, Nat.sqrt_lt]
  have key : ⌊q⌋.toNat < R * R ↔ ⌊q⌋ < ((R * R : ℕ) : Int) := by omega
  have cast2 : ((((R * R : ℕ) : Int)) : Rat) = (((R : Int)) : Rat) ^ 2 := by
    push_cast; ring
  rw [key, Int.floor_lt, cast2]

/-- The seeded running minimum of `multiDetectionCheck` drops below a bound
exactly when the seed does or some element's value does. -/
theorem foldMin_lt_iff (f : Rat × Rat → Int) (l : List (Rat × Rat)) :
    ∀ seed c : Int,
      l.foldl (fun dist p => if f p < dist then f p else dist) seed < c ↔
        seed < c ∨ ∃ p ∈ l, f p < c := by
  induction l with
  | nil => intro seed c; simp
  | cons a rest ih =>
    intro seed c
    simp only [List.foldl_cons]
    rw [ih]
    by_cases h : f a < seed
    · rw [if_pos h]
      constructor
      · rintro (h1 | ⟨p, hp, hpc⟩)
        · exact Or.inr ⟨a, List.mem_cons_self a rest, h1⟩
        · exact Or.inr ⟨p, List.mem_cons_of_mem _ hp, hpc⟩
      · rintro (h1 | ⟨p, hp, hpc⟩)
        · exact Or.inl (lt_trans h h1)
        · rcases List.mem_cons.mp hp with rfl | hp2
          · exact Or.inl hpc
          · exact Or.inr ⟨p, hp2, hpc⟩
    · rw [if_neg h]
      push_neg at h
      constructor
      · rintro (h1 | ⟨p, hp, hpc⟩)
        · exact Or.inl h1
        · exact Or.inr ⟨p, List.mem_cons_of_mem _ hp, hpc⟩
      · rintro (h1 | ⟨p, hp, hpc⟩)
        · exact Or.inl h1
        · rcases List.mem_cons.mp hp with rfl | hp2
          · exact Or.inl (lt_of_le_of_lt h hpc)
          · exact Or.inr ⟨p, hp2, hpc⟩

/-- Claim C2, amended: for a candidate that reached the multi-detection block,
the candidate is rejected `Superposed` exactly when some previously accepted
detection of the same object lies within Euclidean distance
`multiDetectionRadius` of this detection's translation; but the new candidate
built from the outliers is enqueued UNCONDITIONALLY (the push onto
`matchesList`/`matchesId` at FindObject.cpp:959-960 precedes the distance
check), also when the candidate is rejected `Superposed` — not only
otherwise. -/
theorem c2_multiDetection_amended (radius : Int) (id : Int)
    (objDetected : List (Int × (Rat × Rat))) (h : Rat × Rat)
    (outliers : List (Nat × Nat)) (ml : List (List (Nat × Nat))) (mi : List Int)
    (hr : 0 ≤ radius) :
    ((multiDetectionCheck radius id objDetected h outliers ml mi).1 = true ↔
      ∃ p ∈ detectedTranslations objDetected id,
        (p.1 - h.1) ^ 2 + (p.2 - h.2) ^ 2 < (radius : Rat) ^ 2) ∧
    (multiDetectionCheck radius id objDetected h outliers ml mi).2.1 = ml ++ [outliers] ∧
    (multiDetectionCheck radius id objDetected h outliers ml mi).2.2 = mi ++ [id] := by
  refine ⟨?_, rfl, rfl⟩
  simp only [multiDetectionCheck, decide_eq_true_eq]
  rw [show (fun (dist : Int) (p : Rat × Rat) =>
        let dx := p.1 - h.1
        let dy := p.2 - h.2
        let d := isqrtQ (dx * dx + dy * dy)
        if d < dist then d else dist)
      = (fun dist p => if (fun p : Rat × Rat =>
          isqrtQ ((p.1 - h.1) * (p.1 - h.1) + (p.2 - h.2) * (p.2 - h.2))) p < dist
            then (fun p : Rat × Rat =>
          isqrtQ ((p.1 - h.1) * (p.1 - h.1) + (p.2 - h.2) * (p.2 - h.2))) p else dist)
      from rfl]
  rw [foldMin_lt_iff]
  simp only [lt_irrefl, false_or]
  refine exists_congr fun p => and_congr_right fun hp => ?_
  rw [isqrtQ_lt _ _ (add_nonneg (mul_self_nonneg _) (mul_self_nonneg _)) hr]
  rw [show (p.1 - h.1) * (p.1 - h.1) + (p.2 - h.2) * (p.2 - h.2)
      = (p.1 - h.1) ^ 2 + (p.2 - h.2) ^ 2 by ring]

/-- Claim C2 as stated is false at a concrete input: radius 50, one previous
detection of object 1 at translation (0,0), candidate translation (3,4) —
distance 5 < 50, so the candidate is rejected `Superposed`, yet its outlier
candidate is still pushed onto the candidate lists, which the claim's "and
only otherwise" forbids. -/
theorem c2_counterexample :
    (multiDetectionCheck 50 1 [(1, (0, 0))] (3, 4) [(0, 0)] [] []).1 = true ∧
    (multiDetectionCheck 50 1 [(1, (0, 0))] (3, 4) [(0, 0)] [] []).2.1 = [[(0, 0)]] ∧
    (multiDetectionCheck 50 1 [(1, (0, 0))] (3, 4) [(0, 0)] [] []).2.2 = [1] := by
  refine ⟨?_, rfl, rfl⟩
  have h25 : isqrtQ 25 = 5 := by
    unfold isqrtQ
    norm_num
    rw [show Int.toNat 25 = 5 * 5 by decide, Nat.sqrt_eq]
    rfl
  simp only [multiDetectionCheck, decide_eq_true_eq]
  have hl : detectedTranslations [(1, (0, 0))] 1 = [(0, 0)] := by
    simp [detectedTranslations]
  rw [hl]
  simp only [List.foldl]
  norm_num
  rw [h25]
  norm_num

/-- Claim C2's amended statement holds at a concrete input with no previous
detections. -/
theorem c2_witness :
    ((multiDetectionCheck 50 2 [] (0, 0) [] [] []).1 = true ↔
      ∃ p ∈ detectedTranslations [] 2,
        (p.1 - ((0 : Rat), (0 : Rat)).1) ^ 2 + (p.2 - ((0 : Rat), (0 : Rat)).2) ^ 2
          < ((50 : Int) : Rat) ^ 2) ∧
    (multiDetectionCheck 50 2 [] (0, 0) [] [] []).2.1 = [] ++ [[]] ∧
    (multiDetectionCheck 50 2 [] (0, 0) [] [] []).2.2 = [] ++ [2] :=
  c2_multiDetection_amended 50 2 [] (0, 0) [] [] [] (by decide)

/-! ### Claim C3 -/

/-- When the verification loop of `updateVocabulary` succeeds, the returned
`dim` and `type` agree with any non-negative values they started from. -/
theorem verifyLoop_some_fix (mats : List Mat) :
    ∀ (c : Nat) (d t : Int) (r : Nat × Int × Int),
      verifyLoop mats c d t = some r →
      (0 ≤ d → r.2.1 = d) ∧ (0 ≤ t → r.2.2 = t) := by
  induction mats with
  | nil =>
    intro c d t r h
    simp only [verifyLoop, Option.some.injEq] at h
    subst h
    exact ⟨fun _ => rfl, fun _ => rfl⟩
  | cons m rest ih =>
    intro c d t r h
    simp only [verifyLoop] at h
    split at h
    · exact ih _ _ _ r h
    · split at h
      · exact absurd h (by simp)
      · split at h
        · exact absurd h (by simp)
        · rename_i hdata hdim hty
          push_neg at hdim hty
          have hr := ih _ _ _ r h
          constructor
          · intro hd
            rw [hr.1 (Int.natCast_nonneg _)]
            exact hdim hd
          · intro ht
            rw [hr.2 (Int.natCast_nonneg _)]
            exact hty ht

/-- When the verification loop of `updateVocabulary` succeeds, every non-empty
matrix it saw has the returned column count and element type — so two
non-empty matrices differing in either make it fail. -/
theorem verifyLoop_all_eq (mats : List Mat) :
    ∀ (c : Nat) (d t : Int) (r : Nat × Int × Int),
      verifyLoop mats c d t = some r →
      ∀ m ∈ mats, m.data ≠ [] → (m.cols : Int) = r.2.1 ∧ (m.mtype : Int) = r.2.2 := by
  induction mats with
  | nil => intro c d t r _ m hm; simp at hm
  | cons m0 rest ih =>
    intro c d t r h m hm hne
    simp only [verifyLoop] at h
    split at h
    · rename_i hempty
      rcases List.mem_cons.mp hm with rfl | hm2
      · exact absurd hempty hne
      · exact ih _ _ _ r h m hm2 hne
    · split at h
      · exact absurd h (by simp)
      · split at h
        · exact absurd h (by simp)
        · rcases List.mem_cons.mp hm with rfl | hm2
          · have hfix := verifyLoop_some_fix rest _ _ _ r h
            exact ⟨(hfix.1 (Int.natCast_nonneg _)).symm,
                   (hfix.2 (Int.natCast_nonneg _)).symm⟩
          · exact ih _ _ _ r h m hm2 hne

/-- Claim C3, amended: when two non-empty per-object descriptor matrices
differ in column count or element type, `updateVocabulary` refuses to build
and returns — but the vocabulary, the global descriptor store and the range
map are left CLEARED (the unconditional `clearVocabulary()` at entry,
FindObject.cpp:315, has already run), not in the state they had before the
call; the object library itself is untouched. -/
theorem c3_updateVocabulary_mismatch_amended
    (inverted : Bool) (threads : Nat) (incremental : Bool) (minWords : Int)
    (ratio : Rat) (o : NNOracle) (s : FindObject)
    (hmm : ∃ a ∈ s.objects, ∃ b ∈ s.objects,
      a.descriptors.data ≠ [] ∧ b.descriptors.data ≠ [] ∧
      (a.descriptors.cols ≠ b.descriptors.cols ∨ a.descriptors.mtype ≠ b.descriptors.mtype)) :
    FindObject.updateVocabulary inverted threads incremental minWords ratio o s
      = s.clearVocabulary := by
  have hnone : verifyLoop (s.objects.map (·.descriptors)) 0 (-1) (-1) = none := by
    rcases h : verifyLoop (s.objects.map (·.descriptors)) 0 (-1) (-1) with _ | r
    · rfl
    · exfalso
      obtain ⟨a, ha, b, hb, hane, hbne, hne⟩ := hmm
      have hae := verifyLoop_all_eq _ _ _ _ r h a.descriptors
        (List.mem_map_of_mem _ ha) hane
      have hbe := verifyLoop_all_eq _ _ _ _ r h b.descriptors
        (List.mem_map_of_mem _ hb) hbne
      rcases hne with hne | hne
      · exact hne (by exact_mod_cast hae.1.trans hbe.1.symm)
      · exact hne (by exact_mod_cast hae.2.trans hbe.2.symm)
  unfold FindObject.updateVocabulary
  rw [hnone]

/-- Claim C3 as stated is false at a concrete input: a state whose global
descriptor store, range map and vocabulary are non-empty and whose two objects
have descriptor widths 1 and 2.  The failed `updateVocabulary` call empties
all three instead of leaving them as they were. -/
theorem c3_counterexample :
    (FindObject.updateVocabulary true 1 false 0 1 trivialOracle
        ⟨[⟨1, ⟨[[0]], 1, 0⟩⟩, ⟨2, ⟨[[0]], 2, 0⟩⟩],
         [(1, ⟨[[0]], 1, 0⟩)], [(0, 1)], ⟨[[0]], [], [], [(0, 1)]⟩, 3⟩
      ).objectsDescriptors = [] ∧
    (FindObject.updateVocabulary true 1 false 0 1 trivialOracle
        ⟨[⟨1, ⟨[[0]], 1, 0⟩⟩, ⟨2, ⟨[[0]], 2, 0⟩⟩],
         [(1, ⟨[[0]], 1, 0⟩)], [(0, 1)], ⟨[[0]], [], [], [(0, 1)]⟩, 3⟩
      ).objectsDescriptors ≠ [(1, ⟨[[0]], 1, 0⟩)] ∧
    (FindObject.updateVocabulary true 1 false 0 1 trivialOracle
        ⟨[⟨1, ⟨[[0]], 1, 0⟩⟩, ⟨2, ⟨[[0]], 2, 0⟩⟩],
         [(1, ⟨[[0]], 1, 0⟩)], [(0, 1)], ⟨[[0]], [], [], [(0, 1)]⟩, 3⟩
      ).vocabulary ≠ ⟨[[0]], [], [], [(0, 1)]⟩ := by
  refine ⟨by decide, by decide, by decide⟩

/-- Claim C3's amended statement holds at the concrete mismatched state. -/
theorem c3_witness :
    FindObject.updateVocabulary true 1 false 0 1 trivialOracle
        ⟨[⟨1, ⟨[[0]], 1, 0⟩⟩, ⟨2, ⟨[[0]], 2, 0⟩⟩],
         [(1, ⟨[[0]], 1, 0⟩)], [(0, 1)], ⟨[[0]], [], [], [(0, 1)]⟩, 3⟩
      = FindObject.clearVocabulary
          ⟨[⟨1, ⟨[[0]], 1, 0⟩⟩, ⟨2, ⟨[[0]], 2, 0⟩⟩],
           [(1, ⟨[[0]], 1, 0⟩)], [(0, 1)], ⟨[[0]], [], [], [(0, 1)]⟩, 3⟩ :=
  c3_updateVocabulary_mismatch_amended true 1 false 0 1 trivialOracle _ (by decide)

/-! ### Claim C4 -/

/-- One incremental row never shrinks the staging block. -/
theorem incStep_staging_le (ratio : Rat) (o : NNOracle) (objectId : Int)
    (globalSearch : Bool) (i : Nat) (st : Vocabulary × List (Nat × Nat)) (r : List Int) :
    st.1.notIndexedDescriptors.length ≤
      (incStep ratio o objectId globalSearch i st r).1.notIndexedDescriptors.length := by
  unfold incStep
  cases incPick ratio o globalSearch st.1 i <;> simp [recordMatch, stageRow]

/-- The incremental row loop never shrinks the staging block. -/
theorem incLoop_staging_le (ratio : Rat) (o : NNOracle) (objectId : Int)
    (globalSearch : Bool) (l : List (List Int)) :
    ∀ (i : Nat) (st : Vocabulary × List (Nat × Nat)),
      st.1.notIndexedDescriptors.length ≤
        (incLoop ratio o objectId globalSearch i st l).1.notIndexedDescriptors.length := by
  induction l with
  | nil => intro i st; exact le_refl _
  | cons r rest ih =>
    intro i st
    exact le_trans (incStep_staging_le ratio o objectId globalSearch i st r) (ih (i + 1) _)

/-- On a cleared vocabulary the first incremental row finds no candidates
(no staging block, no index) and is always staged. -/
theorem incStep_from_empty (ratio : Rat) (o : NNOracle) (objectId : Int) (i : Nat)
    (words : List (Nat × Nat)) (d : List Int) :
    ((incStep ratio o objectId false i (vocabEmpty, words) d).1).notIndexedDescriptors
      = [d] := rfl

/-- Claim C4: in non-inverted mode the scene-vocabulary build of
`FindObject::detect` leaves the staging block empty only when
`vocabularyIncremental` is false.  With `vocabularyIncremental = true` the
build clears the vocabulary and runs incremental `addWords` WITHOUT a
subsequent `update()` (FindObject.cpp:723-727), so the first scene descriptor
is always staged and `Vocabulary::search` is then invoked with a non-empty
staging block, violating its own `Q_ASSERT` precondition
(Vocabulary.cpp:220) — the claim's "for every configuration of
vocabularyIncremental" fails. -/
theorem c4_search_precondition :
    (∀ (ratio : Rat) (o : NNOracle) (v : Vocabulary) (d : List Int) (ds : List (List Int)),
      ¬ searchPrecondition (buildSceneVocabulary true ratio o v (d :: ds)).1) ∧
    (∀ (ratio : Rat) (o : NNOracle) (v : Vocabulary) (descs : List (List Int)),
      searchPrecondition (buildSceneVocabulary false ratio o v descs).1) := by
  constructor
  · intro ratio o v d ds hpre
    have hlen : 1 ≤
        (buildSceneVocabulary true ratio o v (d :: ds)).1.notIndexedDescriptors.length := by
      unfold buildSceneVocabulary Vocabulary.clearV Vocabulary.addWords
      simp only [if_neg (by simp : ¬ (d :: ds = ([] : List (List Int)))), if_pos, if_true]
      show 1 ≤ (incLoop ratio o (-1) _ 0 (vocabEmpty, []) (d :: ds)).1.notIndexedDescriptors.length
      unfold incLoop
      have h0 : ((incStep ratio o (-1)
          (decide (vocabEmpty.indexedDescriptors ≠ [] ∧
            2 ≤ vocabEmpty.indexedDescriptors.length))
          0 (vocabEmpty, []) d).1).notIndexedDescriptors = [d] :=
        incStep_from_empty ratio o (-1) 0 [] d
      calc (1 : Nat)
          = ((incStep ratio o (-1)
              (decide (vocabEmpty.indexedDescriptors ≠ [] ∧
                2 ≤ vocabEmpty.indexedDescriptors.length))
              0 (vocabEmpty, []) d).1).notIndexedDescriptors.length := by
            rw [h0]
            rfl
        _ ≤ _ := incLoop_staging_le _ _ _ _ ds 1 _
    rcases hpre with ⟨h1, h2⟩
    rw [h1] at hlen
    simp at hlen
  · intro ratio o v descs
    unfold buildSceneVocabulary Vocabulary.clearV Vocabulary.addWords
    rcases descs with _ | ⟨d, ds⟩
    · exact ⟨rfl, rfl⟩
    · simp only [if_neg (by simp : ¬ (d :: ds = ([] : List (List Int))))]
      constructor <;> simp [Vocabulary.update]

/-! ### Claim C6 -/

/-- Claim C6, amended: after every successful `addObject`, `nextObjID` equals
the added object's id plus one — strictly greater than the added id, and
strictly increasing when the id was auto-assigned (id 0).  But `nextObjID` is
NOT monotone across calls: an explicit id below `nextObjID − 1` pulls the
counter back down (FindObject.cpp:143 sets it to `id + 1` unconditionally). -/
theorem c6_addObject_nextObjID_amended (s : FindObject) (obj : ObjSignature)
    (hsucc : (s.addObject obj).2.1 = true) :
    (s.addObject obj).1.nextObjID = (s.addObject obj).2.2 + 1 ∧
    (s.addObject obj).2.2 < (s.addObject obj).1.nextObjID ∧
    (obj.id = 0 → (s.addObject obj).1.nextObjID = s.nextObjID + 1) := by
  by_cases hcol : obj.id ≠ 0 ∧ s.objects.any (fun o => o.id = obj.id)
  · exfalso
    unfold FindObject.addObject at hsucc
    rw [if_pos hcol] at hsucc
    simp at hsucc
  · unfold FindObject.addObject
    rw [if_neg hcol]
    refine ⟨rfl, lt_add_one _, fun h0 => ?_⟩
    simp only [if_pos h0]

/-- Claim C6 as stated is false at a concrete input: with `nextObjID = 10`,
adding an object carrying the explicit id 3 succeeds and resets `nextObjID`
to 4, strictly below its value before the call. -/
theorem c6_counterexample :
    ((⟨[], [], [], vocabEmpty, 10⟩ : FindObject).addObject ⟨3, ⟨[], 0, 0⟩⟩).2.1 = true ∧
    ((⟨[], [], [], vocabEmpty, 10⟩ : FindObject).addObject ⟨3, ⟨[], 0, 0⟩⟩).1.nextObjID = 4 ∧
    ((⟨[], [], [], vocabEmpty, 10⟩ : FindObject).addObject ⟨3, ⟨[], 0, 0⟩⟩).1.nextObjID
      < (⟨[], [], [], vocabEmpty, 10⟩ : FindObject).nextObjID := by
  refine ⟨by decide, by decide, by decide⟩

/-- Claim C6's amended statement holds at a concrete auto-assigned add. -/
theorem c6_witness :
    ((⟨[], [], [], vocabEmpty, 5⟩ : FindObject).addObject ⟨0, ⟨[], 0, 0⟩⟩).1.nextObjID
      = ((⟨[], [], [], vocabEmpty, 5⟩ : FindObject).addObject ⟨0, ⟨[], 0, 0⟩⟩).2.2 + 1 ∧
    ((⟨[], [], [], vocabEmpty, 5⟩ : FindObject).addObject ⟨0, ⟨[], 0, 0⟩⟩).2.2
      < ((⟨[], [], [], vocabEmpty, 5⟩ : FindObject).addObject ⟨0, ⟨[], 0, 0⟩⟩).1.nextObjID ∧
    ((⟨0, ⟨[], 0, 0⟩⟩ : ObjSignature).id = 0 →
      ((⟨[], [], [], vocabEmpty, 5⟩ : FindObject).addObject ⟨0, ⟨[], 0, 0⟩⟩).1.nextObjID
        = (⟨[], [], [], vocabEmpty, 5⟩ : FindObject).nextObjID + 1) :=
  c6_addObject_nextObjID_amended ⟨[], [], [], vocabEmpty, 5⟩ ⟨0, ⟨[], 0, 0⟩⟩ (by decide)

/-! ### Claim C9 -/

/-- Library operations never repopulate the global descriptor store: every
branch either clears it or leaves the state untouched. -/
theorem applyOp_keeps_empty (s : FindObject) (op : LibOp)
    (h : s.objectsDescriptors = []) : (applyOp s op).objectsDescriptors = [] := by
  cases op with
  | add obj =>
    show ((s.addObject obj).1).objectsDescriptors = []
    unfold FindObject.addObject
    split
    · exact h
    · rfl
  | remove id =>
    show (s.removeObject id).objectsDescriptors = []
    unfold FindObject.removeObject
    split
    · rfl
    · exact h
  | removeAll => rfl

/-- A sequence of library operations keeps the global descriptor store
empty. -/
theorem foldl_applyOp_keeps_empty (ops : List LibOp) :
    ∀ s : FindObject, s.objectsDescriptors = [] →
      (ops.foldl applyOp s).objectsDescriptors = [] := by
  induction ops with
  | nil => intro s h; exact h
  | cons op rest ih => intro s h; exact ih _ (applyOp_keeps_empty s op h)

/-- An effective library mutation clears the store, the range map and the
vocabulary. -/
theorem applyOp_effective_clears (s : FindObject) (m : LibOp)
    (hm : mutationEffective s m) :
    (applyOp s m).objectsDescriptors = [] ∧ (applyOp s m).dataRange = [] ∧
    (applyOp s m).vocabulary = vocabEmpty := by
  cases m with
  | add obj =>
    have hm' : ¬ (obj.id ≠ 0 ∧ s.objects.any (fun o => o.id = obj.id)) := hm
    show ((s.addObject obj).1).objectsDescriptors = [] ∧
      ((s.addObject obj).1).dataRange = [] ∧
      ((s.addObject obj).1).vocabulary = vocabEmpty
    unfold FindObject.addObject
    rw [if_neg hm']
    exact ⟨rfl, rfl, rfl⟩
  | remove id =>
    have hm' : s.objects.any (fun o => o.id = id) = true := hm
    show (s.removeObject id).objectsDescriptors = [] ∧
      (s.removeObject id).dataRange = [] ∧
      (s.removeObject id).vocabulary = vocabEmpty
    unfold FindObject.removeObject
    rw [if_pos hm']
    exact ⟨rfl, rfl, rfl⟩
  | removeAll => exact ⟨rfl, rfl, rfl⟩

/-- Claim C9: every effective library mutation (successful `addObject`,
`removeObject` on a present id, `removeAllObjects`) clears the global
descriptor store, the range map and the vocabulary; and as long as only
further library mutations happen (no `updateVocabulary`), a `detect` call on a
feature-bearing scene fails the COMPARE gate — no matching is performed — and
returns false. -/
theorem c9_mutation_clears_detect_fails (s : FindObject) (m : LibOp)
    (ops : List LibOp) (inverted : Bool) (kpts : Nat) (cols ty : Nat)
    (hm : mutationEffective s m) (hk : kpts ≠ 0) :
    (applyOp s m).objectsDescriptors = [] ∧
    (applyOp s m).dataRange = [] ∧
    (applyOp s m).vocabulary = vocabEmpty ∧
    (ops.foldl applyOp (applyOp s m)).objectsDescriptors = [] ∧
    detectGate inverted (ops.foldl applyOp (applyOp s m)) kpts cols ty = false ∧
    detectSucceeds inverted (ops.foldl applyOp (applyOp s m)) kpts cols ty = false := by
  obtain ⟨h1, h2, h3⟩ := applyOp_effective_clears s m hm
  have h4 : (ops.foldl applyOp (applyOp s m)).objectsDescriptors = [] :=
    foldl_applyOp_keeps_empty ops _ h1
  have h5 : detectGate inverted (ops.foldl applyOp (applyOp s m)) kpts cols ty = false := by
    simp [detectGate, h4]
  refine ⟨h1, h2, h3, h4, h5, ?_⟩
  unfold detectSucceeds
  rw [h5]
  simp [h4, hk]

/-- Claim C9 holds at a concrete input: removing the only object of a
populated state clears everything and a subsequent detect on a one-keypoint
scene fails. -/
theorem c9_witness :
    (applyOp ⟨[⟨1, ⟨[[0]], 1, 0⟩⟩], [(1, ⟨[[0]], 1, 0⟩)], [(0, 1)],
        ⟨[[0]], [], [], [(0, 1)]⟩, 2⟩ (LibOp.remove 1)).objectsDescriptors = [] ∧
    (applyOp ⟨[⟨1, ⟨[[0]], 1, 0⟩⟩], [(1, ⟨[[0]], 1, 0⟩)], [(0, 1)],
        ⟨[[0]], [], [], [(0, 1)]⟩, 2⟩ (LibOp.remove 1)).dataRange = [] ∧
    (applyOp ⟨[⟨1, ⟨[[0]], 1, 0⟩⟩], [(1, ⟨[[0]], 1, 0⟩)], [(0, 1)],
        ⟨[[0]], [], [], [(0, 1)]⟩, 2⟩ (LibOp.remove 1)).vocabulary = vocabEmpty ∧
    (([] : List LibOp).foldl applyOp (applyOp ⟨[⟨1, ⟨[[0]], 1, 0⟩⟩,],
        [(1, ⟨[[0]], 1, 0⟩)], [(0, 1)], ⟨[[0]], [], [], [(0, 1)]⟩, 2⟩
        (LibOp.remove 1))).objectsDescriptors = [] ∧
    detectGate false (([] : List LibOp).foldl applyOp
        (applyOp ⟨[⟨1, ⟨[[0]], 1, 0⟩⟩], [(1, ⟨[[0]], 1, 0⟩)], [(0, 1)],
          ⟨[[0]], [], [], [(0, 1)]⟩, 2⟩ (LibOp.remove 1))) 1 1 0 = false ∧
    detectSucceeds false (([] : List LibOp).foldl applyOp
        (applyOp ⟨[⟨1, ⟨[[0]], 1, 0⟩⟩], [(1, ⟨[[0]], 1, 0⟩)], [(0, 1)],
          ⟨[[0]], [], [], [(0, 1)]⟩, 2⟩ (LibOp.remove 1))) 1 1 0 = false :=
  c9_mutation_clears_detect_fails
    ⟨[⟨1, ⟨[[0]], 1, 0⟩⟩], [(1, ⟨[[0]], 1, 0⟩)], [(0, 1)], ⟨[[0]], [], [], [(0, 1)]⟩, 2⟩
    (LibOp.remove 1) [] false 1 1 0 rfl (by decide)

/-! ### Claim C10 -/

/-- The min/max component of the `SearchThread` loop is the plain
`updateMinMax` fold over the nearest-neighbor distances — the match flag never
gates it. -/
theorem searchLoop_minmax (cfg : NNSettings) (sw : List (Nat × Nat)) :
    ∀ (rows : List (Rat × Rat × Nat)) (i : Nat)
      (st : (Rat × Rat) × List (Nat × Nat)),
      (searchLoop cfg sw i st rows).1 = (rows.map (·.1)).foldl updateMinMax st.1 := by
  intro rows
  induction rows with
  | nil => intro i st; rfl
  | cons r rest ih =>
    intro i st
    simp only [searchLoop, List.map_cons, List.foldl_cons]
    rw [ih]

/-- The min/max component of the single-threaded non-inverted loop is the same
fold. -/
theorem processNonInvLoop_minmax (cfg : NNSettings) (dataRange : List (Nat × Int))
    (words : List (Nat × Nat)) :
    ∀ (rows : List (Rat × Rat × Nat)) (i : Nat)
      (st : (Rat × Rat) × List (Int × Nat × Nat)),
      (processNonInvLoop cfg dataRange words i st rows).1
        = (rows.map (·.1)).foldl updateMinMax st.1 := by
  intro rows
  induction rows with
  | nil => intro i st; rfl
  | cons r rest ih =>
    intro i st
    simp only [processNonInvLoop, List.map_cons, List.foldl_cons]
    rw [ih]

/-- Away from the −1 sentinel the update step is the plain min/max pair. -/
theorem updateMinMax_nonneg (mn mx d : Rat) (hmn : 0 ≤ mn) (hmx : 0 ≤ mx) :
    updateMinMax (mn, mx) d = (min mn d, max mx d) := by
  unfold updateMinMax
  have h1 : ¬ mn = -1 := by intro h; rw [h] at hmn; norm_num at hmn
  have h2 : ¬ mx = -1 := by intro h; rw [h] at hmx; norm_num at hmx
  simp only [h1, h2, false_or]
  congr 1
  · by_cases h : d < mn
    · rw [if_pos h, min_eq_right (le_of_lt h)]
    · rw [if_neg h, min_eq_left (not_lt.mp h)]
  · by_cases h : mx < d
    · rw [if_pos h, max_eq_right (le_of_lt h)]
    · rw [if_neg h, max_eq_left (not_lt.mp h)]

/-- The `updateMinMax` fold from non-negative seeds computes componentwise
min/max. -/
theorem foldl_updateMinMax_nonneg (ds : List Rat) :
    ∀ (mn mx : Rat), 0 ≤ mn → 0 ≤ mx → (∀ x ∈ ds, 0 ≤ x) →
      ds.foldl updateMinMax (mn, mx) = (ds.foldl min mn, ds.foldl max mx) := by
  induction ds with
  | nil => intro mn mx _ _ _; rfl
  | cons d rest ih =>
    intro mn mx hmn hmx hds
    have hd : 0 ≤ d := hds d (List.mem_cons_self d rest)
    simp only [List.foldl_cons]
    rw [updateMinMax_nonneg mn mx d hmn hmx]
    exact ih (min mn d) (max mx d) (le_min hmn hd) (le_trans hmx (le_max_left mx d))
      (fun x hx => hds x (List.mem_cons_of_mem d hx))

/-- The `updateMinMax` fold from the −1 sentinels over non-negative distances
yields the least and greatest distance of all rows. -/
theorem minmax_over_rows (rows : List (Rat × Rat × Nat)) (hne : rows ≠ [])
    (hnn : ∀ r ∈ rows, 0 ≤ r.1) :
    (rows.map (·.1)).foldl updateMinMax (-1, -1) = (minD rows, maxD rows) := by
  rcases rows with _ | ⟨r, rest⟩
  · exact absurd rfl hne
  · simp only [List.map_cons, List.foldl_cons, minD, maxD]
    rw [show updateMinMax (-1, -1) r.1 = (r.1, r.1) by simp [updateMinMax]]
    rw [foldl_updateMinMax_nonneg (rest.map (·.1)) r.1 r.1
      (hnn r (List.mem_cons_self r rest)) (hnn r (List.mem_cons_self r rest))
      (fun x hx => by
        obtain ⟨p, hp, rfl⟩ := List.mem_map.mp hx
        exact hnn p (List.mem_cons_of_mem r hp))]
    rw [List.foldl_map, List.foldl_map]

/-- Claim C10: in both matching loops, `minMatchedDistance` and
`maxMatchedDistance` (initialized to the −1 sentinel) are updated with the
nearest-neighbor distance of EVERY query row, matched or not: after the loop
they hold the minimum and maximum `d0` over all query rows, for every
nearest-neighbor configuration. -/
theorem c10_minmax_all_rows (cfg : NNSettings) (sceneWords : List (Nat × Nat))
    (dataRange : List (Nat × Int)) (words : List (Nat × Nat))
    (rows : List (Rat × Rat × Nat)) (hne : rows ≠ [])
    (hnn : ∀ r ∈ rows, 0 ≤ r.1) :
    (searchThreadRun cfg sceneWords rows).1 = (minD rows, maxD rows) ∧
    (processResultsNonInverted cfg dataRange words rows).1 = (minD rows, maxD rows) := by
  constructor
  · rw [searchThreadRun, searchLoop_minmax]
    exact minmax_over_rows rows hne hnn
  · rw [processResultsNonInverted, processNonInvLoop_minmax]
    exact minmax_over_rows rows hne hnn

/-- Claim C10 holds at a concrete input where the first row fails the NNDR
criterion and still drives the maximum. -/
theorem c10_witness :
    (searchThreadRun ⟨true, 1/2, false, 0⟩ [] [(4, 5, 0), (1, 10, 1)]).1
      = (minD [(4, 5, 0), (1, 10, 1)], maxD [(4, 5, 0), (1, 10, 1)]) ∧
    (processResultsNonInverted ⟨true, 1/2, false, 0⟩ [] [] [(4, 5, 0), (1, 10, 1)]).1
      = (minD [(4, 5, 0), (1, 10, 1)], maxD [(4, 5, 0), (1, 10, 1)]) :=
  c10_minmax_all_rows ⟨true, 1/2, false, 0⟩ [] [] [] [(4, 5, 0), (1, 10, 1)]
    (by decide) (by decide)

/-! ### Claim C7 -/

/-- `Vocabulary::update()` preserves the vocabulary size: it only moves the
staging rows into the indexed block. -/
theorem update_size (v : Vocabulary) : v.update.size = v.size := by
  unfold Vocabulary.update
  split
  · simp [Vocabulary.size]
  · rfl

/-- The non-incremental `addWords` emits pairwise-distinct fresh word ids, so
`uniqueKeys().size()` equals the row count. -/
theorem uniqueKeysCount_bulk (base n : Nat) :
    uniqueKeysCount (((List.range n).map (fun i => (base + i, i))).reverse) = n := by
  unfold uniqueKeysCount
  rw [List.map_reverse, List.map_map]
  have hcomp : ((fun p : Nat × Nat => p.1) ∘ fun i => (base + i, i)) = (fun i => base + i) := rfl
  rw [hcomp]
  have hnd : (((List.range n).map (fun i => base + i)).reverse).Nodup := by
    rw [List.nodup_reverse]
    exact (List.nodup_range n).map (add_right_injective base)
  rw [List.dedup_eq_self.mpr hnd, List.length_reverse, List.length_map, List.length_range]

/-- Full characterization of the non-incremental `addWords` path on non-empty
input: the staging block grows by exactly the descriptor rows, the indexed
block is untouched, and the emitted words are the fresh sequential ids
`size, size+1, …` — independent of the search oracle, i.e. no matching is
performed. -/
theorem addWords_bulk_chr (v : Vocabulary) (descs : List (List Int)) (objectId : Int)
    (ratio : Rat) (o : NNOracle) (hne : descs ≠ []) :
    (v.addWords descs objectId false ratio o).1.notIndexedDescriptors
        = v.notIndexedDescriptors ++ descs ∧
    (v.addWords descs objectId false ratio o).1.indexedDescriptors
        = v.indexedDescriptors ∧
    (v.addWords descs objectId false ratio o).2
        = ((List.range descs.length).map (fun i => (v.size + i, i))).reverse ∧
    (v.addWords descs objectId false ratio o).1.notIndexedWordIds
        = v.notIndexedWordIds ++ (List.range descs.length).map (v.size + ·) := by
  unfold Vocabulary.addWords
  rw [if_neg hne]
  refine ⟨?_, ?_, ?_, ?_⟩ <;> simp [Bool.false_eq_true, Vocabulary.size]

/-- Size bookkeeping of the non-incremental `addWords`, also for empty
input. -/
theorem addWords_bulk_size (v : Vocabulary) (descs : List (List Int)) (objectId : Int)
    (ratio : Rat) (o : NNOracle) :
    (v.addWords descs objectId false ratio o).1.indexedDescriptors = v.indexedDescriptors ∧
    (v.addWords descs objectId false ratio o).1.notIndexedDescriptors
      = v.notIndexedDescriptors ++ descs ∧
    uniqueKeysCount (v.addWords descs objectId false ratio o).2 = descs.length := by
  by_cases hne : descs = []
  · subst hne
    unfold Vocabulary.addWords
    simp [uniqueKeysCount]
  · obtain ⟨h1, h2, h3, _⟩ := addWords_bulk_chr v descs objectId ratio o hne
    refine ⟨h2, h1, ?_⟩
    rw [h3, uniqueKeysCount_bulk]

/-- The `updateVocabulary` loop with `incremental = false` accumulates the
staging block and the unique-word counter object by object and never calls
`update()` mid-loop. -/
theorem updVocabLoop_bulk (minWords : Int) (ratio : Rat) (o : NNOracle)
    (objs : List ObjSignature) :
    ∀ (v : Vocabulary) (a : Int),
      (updVocabLoop false minWords ratio o objs (v, a)).1.indexedDescriptors
        = v.indexedDescriptors ∧
      (updVocabLoop false minWords ratio o objs (v, a)).1.notIndexedDescriptors.length
        = v.notIndexedDescriptors.length + sumRows objs ∧
      (updVocabLoop false minWords ratio o objs (v, a)).2 = a + (sumRows objs : Int) := by
  induction objs with
  | nil =>
    intro v a
    exact ⟨rfl, by simp [updVocabLoop, sumRows], by simp [updVocabLoop, sumRows]⟩
  | cons ob rest ih =>
    intro v a
    obtain ⟨h1, h2, h3⟩ := addWords_bulk_size v ob.descriptors.data ob.id ratio o
    simp only [updVocabLoop, Bool.false_eq_true, false_and, if_false]
    obtain ⟨ih1, ih2, ih3⟩ := ih (Vocabulary.addWords v ob.descriptors.data ob.id false ratio o).1
      (a + (uniqueKeysCount (Vocabulary.addWords v ob.descriptors.data ob.id false ratio o).2 : Int))
    refine ⟨?_, ?_, ?_⟩
    · rw [ih1, h1]
    · rw [ih2, h2, List.length_append]
      simp only [sumRows, List.map_cons, List.sum_cons]
      omega
    · rw [ih3, h3]
      simp only [sumRows, List.map_cons, List.sum_cons]
      push_cast
      ring

/-- When every non-empty matrix has column count `D` and type `T`, the
verification loop succeeds and counts all descriptor rows. -/
theorem verifyLoop_agree (D T : Nat) (mats : List Mat) :
    ∀ (c : Nat) (d t : Int),
      (∀ m ∈ mats, m.data ≠ [] → m.cols = D ∧ m.mtype = T) →
      (d = -1 ∨ d = (D : Int)) → (t = -1 ∨ t = (T : Int)) →
      ∃ d' t', verifyLoop mats c d t
        = some (c + (mats.map (fun m => m.data.length)).sum, d', t') := by
  induction mats with
  | nil => intro c d t _ _ _; exact ⟨d, t, by simp [verifyLoop]⟩
  | cons m rest ih =>
    intro c d t hag hd ht
    by_cases hme : m.data = []
    · obtain ⟨d', t', h⟩ := ih c d t
        (fun mm hm hne => hag mm (List.mem_cons_of_mem _ hm) hne) hd ht
      refine ⟨d', t', ?_⟩
      simp only [verifyLoop, if_pos hme]
      simp only [List.map_cons, List.sum_cons, hme, List.length_nil, Nat.zero_add]
      exact h
    · have hmc := hag m (List.mem_cons_self m rest) hme
      have hc1 : ¬(0 ≤ d ∧ (m.cols : Int) ≠ d) := by
        rcases hd with rfl | rfl
        · simp
        · rw [hmc.1]; simp
      have hc2 : ¬(0 ≤ t ∧ (m.mtype : Int) ≠ t) := by
        rcases ht with rfl | rfl
        · simp
        · rw [hmc.2]; simp
      obtain ⟨d', t', h⟩ := ih (c + m.data.length) (m.cols : Int) (m.mtype : Int)
        (fun mm hm hne => hag mm (List.mem_cons_of_mem _ hm) hne)
        (Or.inr (by exact_mod_cast congrArg (Nat.cast : Nat → Int) hmc.1))
        (Or.inr (by exact_mod_cast congrArg (Nat.cast : Nat → Int) hmc.2))
      refine ⟨d', t', ?_⟩
      simp only [verifyLoop, if_neg hme, if_neg hc1, if_neg hc2]
      rw [h]
      simp only [List.map_cons, List.sum_cons]
      rw [Nat.add_assoc]

/-- Claim C7: for a library whose non-empty descriptor matrices agree in
width `D` and type `T`, `updateVocabulary` with `invertedSearch = true` and
`vocabularyIncremental = false` produces a vocabulary whose size is the sum of
all per-object descriptor row counts; and every non-incremental `addWords`
call grows the staging block by exactly its row count, leaves the indexed
block alone, and emits fresh sequential word ids whose values do not depend on
the nearest-neighbor oracle (no matching is performed). -/
theorem c7_inverted_nonincremental_size (s : FindObject) (threads : Nat)
    (minWords : Int) (ratio : Rat) (o : NNOracle) (D T : Nat)
    (hagree : ∀ ob ∈ s.objects, ob.descriptors.data ≠ [] →
      ob.descriptors.cols = D ∧ ob.descriptors.mtype = T) :
    (FindObject.updateVocabulary true threads false minWords ratio o s).vocabulary.size
      = sumRows s.objects ∧
    (∀ (v : Vocabulary) (descs : List (List Int)) (objectId : Int)
        (ratio2 : Rat) (o2 : NNOracle), descs ≠ [] →
      (v.addWords descs objectId false ratio2 o2).1.notIndexedDescriptors
          = v.notIndexedDescriptors ++ descs ∧
      (v.addWords descs objectId false ratio2 o2).1.indexedDescriptors
          = v.indexedDescriptors ∧
      (v.addWords descs objectId false ratio2 o2).2
          = ((List.range descs.length).map (fun i => (v.size + i, i))).reverse ∧
      (v.addWords descs objectId false ratio2 o2).1.notIndexedWordIds
          = v.notIndexedWordIds ++ (List.range descs.length).map (v.size + ·)) := by
  refine ⟨?_, fun v descs objectId ratio2 o2 hne =>
    addWords_bulk_chr v descs objectId ratio2 o2 hne⟩
  have hsum : ((s.objects.map (·.descriptors)).map (fun m => m.data.length)).sum
      = sumRows s.objects := by
    rw [List.map_map]; rfl
  obtain ⟨d', t', hv⟩ := verifyLoop_agree D T (s.objects.map (·.descriptors)) 0 (-1) (-1)
    (fun m hm hne => by
      obtain ⟨ob, hob, rfl⟩ := List.mem_map.mp hm
      exact hagree ob hob hne)
    (Or.inl rfl) (Or.inl rfl)
  rw [Nat.zero_add, hsum] at hv
  unfold FindObject.updateVocabulary
  rw [hv]
  dsimp only
  by_cases hc : sumRows s.objects ≠ 0
  · rw [if_pos hc]
    simp only [true_or, if_true, if_pos]
    obtain ⟨l1, l2, l3⟩ := updVocabLoop_bulk minWords ratio o s.objects vocabEmpty 0
    have hvf2 : (updVocabLoop false minWords ratio o s.objects (vocabEmpty, 0)).2 ≠ 0 := by
      rw [l3]
      simpa using hc
    rw [show s.clearVocabulary.vocabulary = vocabEmpty from rfl]
    rw [if_pos hvf2]
    rw [update_size]
    show (updVocabLoop false minWords ratio o s.objects (vocabEmpty, 0)).1.size = _
    unfold Vocabulary.size
    rw [l1, l2]
    simp [vocabEmpty]
  · rw [if_neg hc]
    push_neg at hc
    rw [hc]
    rfl

/-- Claim C7 holds at a concrete two-object library (rows 2 and 1, all
descriptors 2 columns wide of type 5): the vocabulary ends with size 3, and a
concrete bulk `addWords` grows the empty staging block by one row emitting the
fresh word 0. -/
theorem c7_witness :
    (FindObject.updateVocabulary true 4 false 0 1 trivialOracle
        ⟨[⟨1, ⟨[[0, 0], [1, 1]], 2, 5⟩⟩, ⟨2, ⟨[[2, 2]], 2, 5⟩⟩], [], [], vocabEmpty, 3⟩
      ).vocabulary.size
      = sumRows [⟨1, ⟨[[0, 0], [1, 1]], 2, 5⟩⟩, ⟨2, ⟨[[2, 2]], 2, 5⟩⟩] ∧
    ((Vocabulary.addWords vocabEmpty [[7]] 9 false 1 trivialOracle).1.notIndexedDescriptors
        = vocabEmpty.notIndexedDescriptors ++ [[7]] ∧
      (Vocabulary.addWords vocabEmpty [[7]] 9 false 1 trivialOracle).1.indexedDescriptors
        = vocabEmpty.indexedDescriptors ∧
      (Vocabulary.addWords vocabEmpty [[7]] 9 false 1 trivialOracle).2
        = ((List.range ([[7]] : List (List Int)).length).map
            (fun i => (vocabEmpty.size + i, i))).reverse ∧
      (Vocabulary.addWords vocabEmpty [[7]] 9 false 1 trivialOracle).1.notIndexedWordIds
        = vocabEmpty.notIndexedWordIds
            ++ (List.range ([[7]] : List (List Int)).length).map (vocabEmpty.size + ·)) :=
  ⟨(c7_inverted_nonincremental_size
      ⟨[⟨1, ⟨[[0, 0], [1, 1]], 2, 5⟩⟩, ⟨2, ⟨[[2, 2]], 2, 5⟩⟩], [], [], vocabEmpty, 3⟩
      4 0 1 trivialOracle 2 5 (by decide)).1,
   (c7_inverted_nonincremental_size
      ⟨[⟨1, ⟨[[0, 0], [1, 1]], 2, 5⟩⟩, ⟨2, ⟨[[2, 2]], 2, 5⟩⟩], [], [], vocabEmpty, 3⟩
      4 0 1 trivialOracle 2 5 (by decide)).2
      vocabEmpty [[7]] 9 1 trivialOracle (by decide)⟩

/-! ### Claim C8 -/


/-- Membership in a Qt multimap insertion. -/
theorem mem_qmmInsert (x p : Rat × Nat) (l : List (Rat × Nat)) :
    x ∈ qmmInsert p l ↔ x = p ∨ x ∈ l := by
  induction l with
  | nil => simp [qmmInsert]
  | cons q rest ih =>
    simp only [qmmInsert]
    split
    · simp [List.mem_cons]
    · simp only [List.mem_cons, ih]; tauto

/-- Every pair of the merged `fullResults` multimap came from one of the
candidate lists. -/
theorem mem_foldl_qmmInsert (l : List (Rat × Nat)) :
    ∀ (acc : List (Rat × Nat)) (x : Rat × Nat),
      x ∈ l.foldl (fun m p => qmmInsert p m) acc → x ∈ acc ∨ x ∈ l := by
  induction l with
  | nil => intro acc x h; exact Or.inl h
  | cons p rest ih =>
    intro acc x h
    rcases ih (qmmInsert p acc) x h with h2 | h2
    · rcases (mem_qmmInsert x p acc).mp h2 with rfl | h3
      · exact Or.inr (List.mem_cons_self x rest)
      · exact Or.inl h3
    · exact Or.inr (List.mem_cons_of_mem p h2)

/-- A word accepted by the NNDR test is one of the candidates. -/
theorem nndrPick_mem (ratio : Rat) (l : List (Rat × Nat)) (w : Nat) :
    nndrPick ratio l = some w → ∃ p ∈ l, p.2 = w := by
  rcases l with _ | ⟨a, _ | ⟨b, rest⟩⟩ <;> intro h
  · simp [nndrPick] at h
  · simp [nndrPick] at h
  · simp only [nndrPick] at h
    split at h
    · exact ⟨a, List.mem_cons_self a _, by simpa using h⟩
    · simp at h

/-- Under the staging invariant, every `notIndexedWordIds` lookup (also the
out-of-range default 0 when the staging block is non-empty) stays below the
vocabulary size. -/
theorem stagingInvariant_getD (v : Vocabulary) (hv : stagingInvariant v)
    (hne : v.notIndexedDescriptors ≠ []) (slot : Nat) :
    v.notIndexedWordIds.getD slot 0 < v.size := by
  have hlen : 1 ≤ v.notIndexedDescriptors.length :=
    List.length_pos.mpr hne
  have hmem : v.notIndexedWordIds.getD slot 0 ∈ v.notIndexedWordIds ∨
      v.notIndexedWordIds.getD slot 0 = 0 := by
    rcases lt_or_ge slot v.notIndexedWordIds.length with h | h
    · left
      rw [List.getD_eq_getElem _ _ h]
      exact List.getElem_mem h
    · right
      exact List.getD_eq_default _ _ h
  rcases hmem with h | h
  · set x := v.notIndexedWordIds.getD slot 0 with hx
    rw [hv] at h
    obtain ⟨k, hk, heq⟩ := List.mem_map.mp h
    have hk2 := List.mem_range.mp hk
    unfold Vocabulary.size
    omega
  · rw [h]
    unfold Vocabulary.size
    omega

/-- Under the staging invariant and in-range index answers, a matched word id
is always below the vocabulary size. -/
theorem incPick_lt (ratio : Rat) (o : NNOracle) (gs : Bool) (v : Vocabulary) (i w : Nat)
    (hv : stagingInvariant v)
    (hg : ∀ p ∈ o.globalNN i, p.2 < v.indexedDescriptors.length)
    (hp : incPick ratio o gs v i = some w) : w < v.size := by
  unfold incPick at hp
  obtain ⟨p, hpm, rfl⟩ := nndrPick_mem ratio _ w hp
  rcases mem_foldl_qmmInsert _ _ _ hpm with h | h
  · simp at h
  · rcases List.mem_append.mp h with h | h
    · by_cases hne : v.notIndexedDescriptors ≠ []
      · rw [if_pos hne] at h
        obtain ⟨q, _, rfl⟩ := List.mem_map.mp h
        exact stagingInvariant_getD v hv hne q.2
      · rw [if_neg hne] at h
        simp at h
    · by_cases hgs : gs = true
      · rw [if_pos hgs] at h
        have := hg p h
        unfold Vocabulary.size
        omega
      · rw [if_neg hgs] at h
        simp at h


/-- An incremental row never touches the indexed block. -/
theorem incStep_indexed (ratio : Rat) (o : NNOracle) (objectId : Int) (gs : Bool)
    (i : Nat) (st : Vocabulary × List (Nat × Nat)) (r : List Int) :
    (incStep ratio o objectId gs i st r).1.indexedDescriptors
      = st.1.indexedDescriptors := by
  unfold incStep
  cases incPick ratio o gs st.1 i <;> rfl

/-- Staging a new row extends the dense id block by exactly `M + M'`. -/
theorem stagingInvariant_stageRow (v : Vocabulary) (words : List (Nat × Nat))
    (objectId : Int) (i : Nat) (d : List Int) (hv : stagingInvariant v) :
    stagingInvariant (stageRow v words objectId i d).1 := by
  unfold stageRow stagingInvariant at *
  simp only [List.length_append, List.length_cons, List.length_nil]
  rw [List.range_succ, List.map_append, ← hv]
  rfl

/-- Staging a new row keeps all recorded word ids below the (grown)
vocabulary size. -/
theorem bounded_stageRow (v : Vocabulary) (words : List (Nat × Nat))
    (objectId : Int) (i : Nat) (d : List Int) (hb : wordIdsBounded v) :
    wordIdsBounded (stageRow v words objectId i d).1 := by
  unfold stageRow wordIdsBounded at *
  intro p hp
  simp only [List.mem_cons] at hp
  unfold Vocabulary.size at *
  simp only [List.length_append, List.length_cons, List.length_nil]
  rcases hp with rfl | hp
  · omega
  · have := hb p hp
    omega

/-- One incremental row preserves the staging invariant. -/
theorem stagingInvariant_incStep (ratio : Rat) (o : NNOracle) (objectId : Int)
    (gs : Bool) (i : Nat) (st : Vocabulary × List (Nat × Nat)) (r : List Int)
    (hv : stagingInvariant st.1) :
    stagingInvariant (incStep ratio o objectId gs i st r).1 := by
  unfold incStep
  cases incPick ratio o gs st.1 i with
  | none => exact stagingInvariant_stageRow _ _ _ _ _ hv
  | some w => exact hv

/-- One incremental row keeps the recorded word ids below the vocabulary
size. -/
theorem bounded_incStep (ratio : Rat) (o : NNOracle) (objectId : Int)
    (gs : Bool) (i : Nat) (st : Vocabulary × List (Nat × Nat)) (r : List Int)
    (hv : stagingInvariant st.1) (hb : wordIdsBounded st.1)
    (hg : ∀ p ∈ o.globalNN i, p.2 < st.1.indexedDescriptors.length) :
    wordIdsBounded (incStep ratio o objectId gs i st r).1 := by
  unfold incStep
  rcases hp : incPick ratio o gs st.1 i with _ | w
  · exact bounded_stageRow _ _ _ _ _ hb
  · have hw := incPick_lt ratio o gs st.1 i w hv hg hp
    unfold recordMatch wordIdsBounded
    intro p hmem
    simp only [List.mem_cons] at hmem
    rcases hmem with rfl | hmem
    · exact hw
    · exact hb p hmem

/-- The incremental row loop preserves the staging invariant and the word-id
bound. -/
theorem incLoop_inv (ratio : Rat) (o : NNOracle) (objectId : Int) (gs : Bool)
    (l : List (List Int)) :
    ∀ (i : Nat) (st : Vocabulary × List (Nat × Nat)),
      stagingInvariant st.1 → wordIdsBounded st.1 →
      (∀ (j : Nat), ∀ p ∈ o.globalNN j, p.2 < st.1.indexedDescriptors.length) →
      stagingInvariant (incLoop ratio o objectId gs i st l).1 ∧
      wordIdsBounded (incLoop ratio o objectId gs i st l).1 := by
  induction l with
  | nil => intro i st hv hb _; exact ⟨hv, hb⟩
  | cons r rest ih =>
    intro i st hv hb hg
    have hv1 := stagingInvariant_incStep ratio o objectId gs i st r hv
    have hb1 := bounded_incStep ratio o objectId gs i st r hv hb (hg i)
    have hg1 : ∀ (j : Nat), ∀ p ∈ o.globalNN j,
        p.2 < (incStep ratio o objectId gs i st r).1.indexedDescriptors.length := by
      rw [incStep_indexed]
      exact hg
    exact ih (i + 1) (incStep ratio o objectId gs i st r) hv1 hb1 hg1


/-- The incremental row loop preserves the staging invariant (no word-id
hypotheses needed). -/
theorem incLoop_staging_inv (ratio : Rat) (o : NNOracle) (objectId : Int) (gs : Bool)
    (l : List (List Int)) :
    ∀ (i : Nat) (st : Vocabulary × List (Nat × Nat)),
      stagingInvariant st.1 →
      stagingInvariant (incLoop ratio o objectId gs i st l).1 := by
  induction l with
  | nil => intro i st hv; exact hv
  | cons r rest ih =>
    intro i st hv
    exact ih (i + 1) _ (stagingInvariant_incStep ratio o objectId gs i st r hv)

/-- `addWords` in either mode preserves the staging invariant, and — given
in-range index answers — the word-id bound. -/
theorem addWords_inv (v : Vocabulary) (descs : List (List Int)) (objectId : Int)
    (inc : Bool) (ratio : Rat) (o : NNOracle) (hv : stagingInvariant v) :
    stagingInvariant (v.addWords descs objectId inc ratio o).1 ∧
    (wordIdsBounded v →
      (∀ (j : Nat), ∀ p ∈ o.globalNN j, p.2 < v.indexedDescriptors.length) →
      wordIdsBounded (v.addWords descs objectId inc ratio o).1) := by
  by_cases hne : descs = []
  · subst hne
    unfold Vocabulary.addWords
    simp only [if_pos rfl]
    exact ⟨hv, fun hb _ => hb⟩
  · unfold Vocabulary.addWords
    rw [if_neg hne]
    cases inc with
    | true =>
      rw [if_pos rfl]
      constructor
      · exact incLoop_staging_inv ratio o objectId _ descs 0 (v, []) hv
      · intro hb hg
        exact (incLoop_inv ratio o objectId _ descs 0 (v, []) hv hb hg).2
    | false =>
      simp only [Bool.false_eq_true, if_false]
      constructor
      · unfold stagingInvariant at *
        simp only
        rw [hv, List.length_append, List.range_add, List.map_append, List.map_map]
        have hfun : ((fun x => v.indexedDescriptors.length + x)
              ∘ (fun x => v.notIndexedDescriptors.length + x))
            = (fun x => v.indexedDescriptors.length + v.notIndexedDescriptors.length + x) :=
          funext (fun x => by simp [Nat.add_assoc])
        rw [hfun]
      · intro hb _
        unfold wordIdsBounded at *
        intro p hp
        simp only [List.mem_append, List.mem_reverse] at hp
        unfold Vocabulary.size at *
        simp only [List.length_append]
        rcases hp with hp | hp
        · obtain ⟨k, hk, heq⟩ := List.mem_map.mp hp
          have hkr := List.mem_range.mp hk
          rw [← heq]
          simp only
          omega
        · have := hb p hp
          omega

/-- After `update()` the staging block and its id list are empty, the indexed
block covers the whole vocabulary, and both invariants survive. -/
theorem update_after (v : Vocabulary) (hv : stagingInvariant v) :
    v.update.notIndexedDescriptors = [] ∧ v.update.notIndexedWordIds = [] ∧
    v.update.indexedDescriptors.length = v.update.size ∧
    stagingInvariant v.update ∧ (wordIdsBounded v → wordIdsBounded v.update) := by
  unfold Vocabulary.update
  split
  · refine ⟨rfl, rfl, ?_, ?_, ?_⟩
    · unfold Vocabulary.size
      simp
    · unfold stagingInvariant
      simp
    · intro hb
      unfold wordIdsBounded Vocabulary.size at *
      intro p hp
      have := hb p hp
      simp only [List.length_append, List.length_nil]
      omega
  · rename_i hstag
    push_neg at hstag
    have hids : v.notIndexedWordIds = [] := by
      rw [hv, hstag]
      rfl
    refine ⟨hstag, hids, ?_, hv, fun hb => hb⟩
    unfold Vocabulary.size
    rw [hstag]
    simp

/-- Claim C8: every vocabulary operation preserves the staging invariant —
word ids stay the dense block `[0, M + M')` with `notIndexedWordIds[k] = M + k`
and every id recorded in the word-to-object map below `M + M'` (given in-range
index-search answers) — `clear` establishes it, `addWords` in either mode and
`update` preserve it, and immediately after `update()` the staging block and
its id list are empty with `indexedDescriptors.rows` equal to the vocabulary
size. -/
theorem c8_vocabulary_invariants :
    (stagingInvariant vocabEmpty ∧ wordIdsBounded vocabEmpty) ∧
    (∀ (v : Vocabulary) (descs : List (List Int)) (objectId : Int) (inc : Bool)
        (ratio : Rat) (o : NNOracle),
      stagingInvariant v →
      stagingInvariant (v.addWords descs objectId inc ratio o).1 ∧
      (wordIdsBounded v →
        (∀ (j : Nat), ∀ p ∈ o.globalNN j, p.2 < v.indexedDescriptors.length) →
        wordIdsBounded (v.addWords descs objectId inc ratio o).1)) ∧
    (∀ v : Vocabulary, stagingInvariant v →
      v.update.notIndexedDescriptors = [] ∧ v.update.notIndexedWordIds = [] ∧
      v.update.indexedDescriptors.length = v.update.size ∧
      stagingInvariant v.update ∧ (wordIdsBounded v → wordIdsBounded v.update)) := by
  refine ⟨⟨by decide, ?_⟩, ?_, ?_⟩
  · intro p hp
    simp [vocabEmpty] at hp
  · intro v descs objectId inc ratio o hv
    exact addWords_inv v descs objectId inc ratio o hv
  · intro v hv
    exact update_after v hv

/-- Claim C8 holds at concrete inputs: an incremental two-row `addWords` on
the cleared vocabulary, and an `update()` on a vocabulary with one indexed and
one staged row. -/
theorem c8_witness :
    (stagingInvariant (Vocabulary.addWords vocabEmpty [[1], [2]] 5 true 1 trivialOracle).1 ∧
      (wordIdsBounded vocabEmpty →
        (∀ (j : Nat), ∀ p ∈ trivialOracle.globalNN j,
          p.2 < vocabEmpty.indexedDescriptors.length) →
        wordIdsBounded (Vocabulary.addWords vocabEmpty [[1], [2]] 5 true 1 trivialOracle).1)) ∧
    ((⟨[[3]], [[4]], [1], [(1, 7)]⟩ : Vocabulary).update.notIndexedDescriptors = [] ∧
      (⟨[[3]], [[4]], [1], [(1, 7)]⟩ : Vocabulary).update.notIndexedWordIds = [] ∧
      (⟨[[3]], [[4]], [1], [(1, 7)]⟩ : Vocabulary).update.indexedDescriptors.length
        = (⟨[[3]], [[4]], [1], [(1, 7)]⟩ : Vocabulary).update.size ∧
      stagingInvariant (⟨[[3]], [[4]], [1], [(1, 7)]⟩ : Vocabulary).update ∧
      (wordIdsBounded (⟨[[3]], [[4]], [1], [(1, 7)]⟩ : Vocabulary) →
        wordIdsBounded (⟨[[3]], [[4]], [1], [(1, 7)]⟩ : Vocabulary).update)) :=
  ⟨c8_vocabulary_invariants.2.1 vocabEmpty [[1], [2]] 5 true 1 trivialOracle (by decide),
   c8_vocabulary_invariants.2.2 ⟨[[3]], [[4]], [1], [(1, 7)]⟩ (by decide)⟩

end FindObjectSpec
